import Mathlib

/-!
# RTSP video analytics pipeline: a verification development

A shallow embedding of the pipeline's C++ sources

* `src/HLSRecorder.{hpp,cpp}`  (segmented archive writer),
* `src/SafeQueue.hpp`          (blocking transfer queue),
* `src/RTSPStreamer.{hpp,cpp}` (stream ingestor),
* `src/main.cpp`               (detection worker, per decoded frame),
* `src/DatabaseHandler.{hpp,cpp}` (persistence sink),

followed by theorems about the embedded definitions.

Conventions of the embedding.

* `int64_t` values are `Int`s; the one arithmetic operation the sources perform
  on them (`lastPts + 1`) is wrapped into the 64-bit two's-complement range by
  `wrapInt64`.
* A C pointer that may be null is an `Option`.
* Calls into the media libraries (libavformat / libavcodec) are not part of the
  repository.  Their results are inputs of the embedded functions (fields of an
  environment record, or a function argument), and the calls a function makes
  on the muxer are returned as a list of `MuxerCall`s.
* A function that would dereference a null pointer has no defined result; the
  embedding returns `none` there.
-/

/-! ## Machine integers -/

/-- Smallest `int64_t`. -/
def INT64_MIN : Int := -(2 ^ 63)

/-- Largest `int64_t`. -/
def INT64_MAX : Int := 2 ^ 63 - 1

/-- Two's-complement reduction of an integer into the `int64_t` range. -/
def wrapInt64 (x : Int) : Int := (x + 2 ^ 63) % 2 ^ 64 - 2 ^ 63

/-- Membership in the `int64_t` range. -/
def isInt64 (x : Int) : Prop := INT64_MIN ≤ x ∧ x ≤ INT64_MAX

instance (x : Int) : Decidable (isInt64 x) := by
  unfold isInt64; exact inferInstance

/-! ## Media library data -/

/-- The library's rational number, used for time bases. -/
structure AVRational where
  num : Int
  den : Int
deriving DecidableEq

/-- The library's `AVMediaType`. -/
inductive AVMediaType where
  | AVMEDIA_TYPE_UNKNOWN
  | AVMEDIA_TYPE_VIDEO
  | AVMEDIA_TYPE_AUDIO
  | AVMEDIA_TYPE_DATA
  | AVMEDIA_TYPE_SUBTITLE
  | AVMEDIA_TYPE_ATTACHMENT
deriving DecidableEq

/-- The fields of `AVCodecParameters` the sources read or write. -/
structure AVCodecParameters where
  codec_type : AVMediaType
  codec_id : Nat
  codec_tag : Nat
  extradata : List Nat
deriving DecidableEq

/-- The fields of `AVPacket` the sources read or write, and its payload. -/
structure AVPacket where
  pts : Int
  dts : Int
  duration : Int
  stream_index : Int
  data : List Nat
deriving DecidableEq

/-- The fields of `AVStream` the sources read or write. -/
structure AVStream where
  index : Int
  time_base : AVRational
  codecpar : AVCodecParameters
deriving DecidableEq

/-! ## HLSRecorder (src/HLSRecorder.hpp, src/HLSRecorder.cpp) -/

/-- The output `AVFormatContext` as the recorder sees it: whether the output
format carries `AVFMT_NOFILE`, and the two private options `init` sets. -/
structure OutputContext where
  nofile : Bool
  hls_time : Option String
  hls_list_size : Option String
deriving DecidableEq

/-- A call the recorder makes on the muxer library, in the order made. -/
inductive MuxerCall where
  | avio_open_call
  | write_header
  | interleaved_write_frame (pkt : AVPacket)
  | write_trailer
  | avio_closep
  | free_context
deriving DecidableEq

/-- What the muxer library answers during `HLSRecorder::init`. -/
structure MuxerEnv where
  /-- Context left in `outFmtCtx` by `avformat_alloc_output_context2`. -/
  alloc_output_context2 : Option OutputContext
  /-- Result of `avformat_new_stream`. -/
  new_stream : Option AVStream
  /-- Return code of `avcodec_parameters_copy`. -/
  parameters_copy : Int
  /-- Return code of `avio_open`. -/
  avio_open : Int
  /-- Return code of `avformat_write_header`. -/
  write_header : Int
  /-- Time base the muxer gives the output stream while writing the header. -/
  header_time_base : AVRational

/-- The data members of `class HLSRecorder`. -/
structure HLSRecorder where
  outFmtCtx : Option OutputContext
  outStream : Option AVStream
  inTimebase : AVRational
  initialized : Bool
  lastPts : Int
deriving DecidableEq

namespace HLSRecorder

/-- The constructor: the default member initialisers of the class.  The member
`inTimebase` has none; its indeterminate value is an argument. -/
def new (tb : AVRational) : HLSRecorder :=
  { outFmtCtx := none, outStream := none, inTimebase := tb,
    initialized := false, lastPts := -1 }

/-- `HLSRecorder::init`.  Returns the recorder afterwards, the `bool` result
and the calls made on the muxer that `finish` later pairs with. -/
def init (env : MuxerEnv) (r : HLSRecorder) (_outputFilename : String)
    (inputCodecParams : Option AVCodecParameters) (inputTimeBase : AVRational) :
    HLSRecorder × Bool × List MuxerCall :=
  let r := { r with inTimebase := inputTimeBase }
  match inputCodecParams with
  | none => (r, false, [])
  | some par =>
    let r := { r with outFmtCtx := env.alloc_output_context2 }
    match r.outFmtCtx with
    | none => (r, false, [])
    | some ctx =>
      let r := { r with outStream := env.new_stream }
      match r.outStream with
      | none => (r, false, [])
      | some st =>
        if env.parameters_copy < 0 then (r, false, [])
        else
          -- avcodec_parameters_copy, then the codec tag reset
          let st := { st with codecpar := { par with codec_tag := 0 } }
          let ctx := { ctx with hls_time := some "2", hls_list_size := some "5" }
          let r := { r with outFmtCtx := some ctx, outStream := some st }
          if !ctx.nofile && decide (env.avio_open < 0) then
            (r, false, [MuxerCall.avio_open_call])
          else
            let calls := if !ctx.nofile then [MuxerCall.avio_open_call] else []
            if env.write_header < 0 then (r, false, calls ++ [MuxerCall.write_header])
            else
              let st := { st with time_base := env.header_time_base }
              ({ r with outStream := some st, initialized := true }, true,
                calls ++ [MuxerCall.write_header])

/-- `HLSRecorder::writePacket`.  The argument `rescale_ts` is the library's
`av_packet_rescale_ts (packet, src, dst)`.  The result is the recorder
afterwards, the packet as the call leaves it, and the calls made on the muxer;
`none` when `outStream` or `outFmtCtx` would be dereferenced while null. -/
def writePacket (rescale_ts : AVPacket → AVRational → AVRational → AVPacket)
    (r : HLSRecorder) (packet : Option AVPacket) :
    Option (HLSRecorder × Option AVPacket × List MuxerCall) :=
  if !r.initialized then some (r, packet, [])
  else
    match packet with
    | none => some (r, packet, [])
    | some pkt =>
      match r.outStream, r.outFmtCtx with
      | none, _ => none
      | _, none => none
      | some st, some _ =>
        -- Rescale timestamps
        let pkt := rescale_ts pkt r.inTimebase st.time_base
        let pkt := { pkt with stream_index := st.index }
        -- Ensure monotonic Pts
        let pkt :=
          if r.lastPts ≠ -1 ∧ pkt.pts ≤ r.lastPts then
            let pkt := { pkt with pts := wrapInt64 (r.lastPts + 1) }
            { pkt with dts := pkt.pts }
          else pkt
        let r := { r with lastPts := pkt.pts }
        some (r, some pkt, [MuxerCall.interleaved_write_frame pkt])

/-- `HLSRecorder::finish`: the recorder afterwards and the calls made. -/
def finish (r : HLSRecorder) : HLSRecorder × List MuxerCall :=
  match r.initialized, r.outFmtCtx with
  | true, some ctx =>
    let calls := [MuxerCall.write_trailer] ++
      (if !ctx.nofile then [MuxerCall.avio_closep] else []) ++
      [MuxerCall.free_context]
    ({ r with outFmtCtx := none, initialized := false }, calls)
  | _, _ => (r, [])

/-- `HLSRecorder::~HLSRecorder`: the destructor only calls `finish`. -/
def destructor (r : HLSRecorder) : HLSRecorder × List MuxerCall :=
  finish r

/-- Successive `writePacket` calls on one recorder, as `hlsWorker` makes them:
the recorder afterwards and all calls made on the muxer, in order. -/
def writePackets (rescale_ts : AVPacket → AVRational → AVRational → AVPacket) :
    HLSRecorder → List (Option AVPacket) → Option (HLSRecorder × List MuxerCall)
  | r, [] => some (r, [])
  | r, p :: ps =>
    match writePacket rescale_ts r p with
    | none => none
    | some (r1, _, calls) =>
      match writePackets rescale_ts r1 ps with
      | none => none
      | some (r2, rest) => some (r2, calls ++ rest)

end HLSRecorder

/-- The presentation timestamps submitted to `av_interleaved_write_frame`, in
submission order. -/
def submittedPts : List MuxerCall → List Int
  | [] => []
  | MuxerCall.interleaved_write_frame pkt :: cs => pkt.pts :: submittedPts cs
  | _ :: cs => submittedPts cs

/-! ## SafeQueue (src/SafeQueue.hpp) -/

/-- The data members of `SafeQueue<T>` that carry state: the `std::queue`
(front of the queue = head of the list) and the stop flag.  The mutex and the
condition variable make every member function one atomic step on this state. -/
structure SafeQueue (T : Type) where
  queue : List T
  stop_flag : Bool

namespace SafeQueue

variable {T : Type}

/-- The constructor `SafeQueue() : stop_flag(false)`. -/
def new : SafeQueue T := { queue := [], stop_flag := false }

/-- `SafeQueue::push`: append at the back. -/
def push (q : SafeQueue T) (value : T) : SafeQueue T :=
  { q with queue := q.queue ++ [value] }

/-- The predicate `pop` waits for: `!queue.empty() || stop_flag`. -/
def popReady (q : SafeQueue T) : Bool := !q.queue.isEmpty || q.stop_flag

/-- `SafeQueue::pop` as one atomic step.
* `none`: the wait predicate is false, the caller stays blocked in `cond.wait`;
* `some (q, none)`: the call returns `false` and leaves `value` untouched;
* `some (q, some x)`: the call returns `true` with `value = x`. -/
def pop (q : SafeQueue T) : Option (SafeQueue T × Option T) :=
  if !popReady q then none
  else
    match q.queue with
    | [] => some (q, none)   -- here `queue.empty() && stop_flag`
    | x :: rest => some ({ q with queue := rest }, some x)

/-- `SafeQueue::size`. -/
def size (q : SafeQueue T) : Nat := q.queue.length

/-- `SafeQueue::stop`. -/
def stop (q : SafeQueue T) : SafeQueue T := { q with stop_flag := true }

/-- `SafeQueue::clear`. -/
def clear (q : SafeQueue T) : SafeQueue T := { q with queue := [] }

end SafeQueue

/-- One atomic operation on a queue by some thread. -/
inductive QueueOp (T : Type) where
  | push (value : T)
  | pop
  | stop

/-- An interleaving of atomic operations applied to a queue, oldest first:
the queue afterwards and the values handed out by the pops that returned
`true`, in the order handed out.  A `pop` step at which the caller is blocked
changes nothing (the caller is still inside `cond.wait`). -/
def runOps {T : Type} : SafeQueue T → List (QueueOp T) → SafeQueue T × List T
  | q, [] => (q, [])
  | q, QueueOp.push v :: ops => runOps (q.push v) ops
  | q, QueueOp.stop :: ops => runOps q.stop ops
  | q, QueueOp.pop :: ops =>
    match q.pop with
    | none => runOps q ops
    | some (q1, none) => runOps q1 ops
    | some (q1, some x) =>
      let (q2, out) := runOps q1 ops
      (q2, x :: out)

/-- The values pushed by an interleaving, in push order. -/
def pushedValues {T : Type} : List (QueueOp T) → List T
  | [] => []
  | QueueOp.push v :: ops => v :: pushedValues ops
  | _ :: ops => pushedValues ops

/-- The results of `n` successive `pop` calls with no other operation in
between: `none` for a call that returned `false`, `some x` for one that
returned `true` with value `x`.  The whole result is `none` when one of the
calls never returns (blocks). -/
def popSeq {T : Type} : Nat → SafeQueue T → Option (List (Option T) × SafeQueue T)
  | 0, q => some ([], q)
  | n + 1, q =>
    match q.pop with
    | none => none
    | some (q1, r) =>
      match popSeq n q1 with
      | none => none
      | some (rs, q2) => some (r :: rs, q2)

/-! ## RTSPStreamer (src/RTSPStreamer.hpp, src/RTSPStreamer.cpp) -/

/-- Reduction of an integer into the 32-bit `int` range (the conversion of the
`unsigned int` loop counter to `int videoStreamIndex`). -/
def wrapInt32 (x : Int) : Int := (x + 2 ^ 31) % 2 ^ 32 - 2 ^ 31

/-- The input `AVFormatContext` as the streamer sees it: its stream array
(`nb_streams` is the length of the list). -/
structure InputContext where
  streams : List AVStream
deriving DecidableEq

/-- What the demuxer library answers during `RTSPStreamer::open`. -/
structure DemuxEnv where
  /-- Return code of `avformat_open_input`. -/
  open_input : Int
  /-- Context left in `fmtCtx` by `avformat_open_input` (null after a failure). -/
  open_input_ctx : Option InputContext
  /-- Return code of `avformat_find_stream_info`. -/
  find_stream_info : Int
  /-- The streams of the context once `avformat_find_stream_info` has run. -/
  streams : List AVStream

/-- The data members of `class RTSPStreamer` (the thread handle apart). -/
structure RTSPStreamer where
  fmtCtx : Option InputContext
  videoStreamIndex : Int
  rtspUrl : String
  shouldStop : Bool
deriving DecidableEq

/-- The loop of `RTSPStreamer::open` over the stream array, entered with
`videoStreamIndex = -1`: `i` is the loop counter, the argument list holds
`streams[i], streams[i+1], ...`; the result is `videoStreamIndex` at loop exit. -/
def findVideoStream : List AVStream → Nat → Int
  | [], _ => -1
  | st :: rest, i =>
    if st.codecpar.codec_type = AVMediaType.AVMEDIA_TYPE_VIDEO then wrapInt32 i
    else findVideoStream rest (i + 1)

namespace RTSPStreamer

/-- The constructor: `shouldStop(false)` and the default member initialisers. -/
def new : RTSPStreamer :=
  { fmtCtx := none, videoStreamIndex := -1, rtspUrl := "", shouldStop := false }

/-- `RTSPStreamer::open`: the streamer afterwards and the `bool` result; `none`
when the library reports success but leaves `fmtCtx` null (it is then
dereferenced). -/
def openUrl (env : DemuxEnv) (s : RTSPStreamer) (url : String) :
    Option (RTSPStreamer × Bool) :=
  let s := { s with rtspUrl := url }
  let s := { s with fmtCtx := env.open_input_ctx }
  if env.open_input < 0 then some (s, false)
  else
    match s.fmtCtx with
    | none => none
    | some ctx =>
      let ctx := { ctx with streams := env.streams }
      let s := { s with fmtCtx := some ctx }
      if env.find_stream_info < 0 then some (s, false)
      else
        let s := { s with videoStreamIndex := findVideoStream ctx.streams 0 }
        if s.videoStreamIndex = -1 then some (s, false)
        else some (s, true)

/-- `RTSPStreamer::getCodecParameters`: `some none` is the null pointer;
the outer `none` stands for an index past the stream array. -/
def getCodecParameters (s : RTSPStreamer) : Option (Option AVCodecParameters) :=
  match s.fmtCtx with
  | some ctx =>
    if s.videoStreamIndex ≥ 0 then
      match ctx.streams[s.videoStreamIndex.toNat]? with
      | some st => some (some st.codecpar)
      | none => none
    else some none
  | none => some none

/-- `RTSPStreamer::getTimeBase`; `none` stands for an index past the stream
array. -/
def getTimeBase (s : RTSPStreamer) : Option AVRational :=
  match s.fmtCtx with
  | some ctx =>
    if s.videoStreamIndex ≥ 0 then
      match ctx.streams[s.videoStreamIndex.toNat]? with
      | some st => some st.time_base
      | none => none
    else some { num := 1, den := 90000 }   -- Default fallback
  | none => some { num := 1, den := 90000 }   -- Default fallback

end RTSPStreamer

/-- What one pass through the `while` loop of `RTSPStreamer::recordLoop`
observes of its surroundings, in the order observed. -/
structure Iteration where
  /-- Value of the atomic `shouldStop` read by the loop condition. -/
  shouldStop : Bool
  /-- Return code of `av_read_frame`. -/
  ret : Int
  /-- The packet `av_read_frame` filled in. -/
  packet : AVPacket
  /-- Whether the first `av_packet_clone` returned a packet (not null). -/
  cloneHLS : Bool
  /-- Value returned by `detectQueue.size()`. -/
  detectSize : Nat
  /-- Whether the second `av_packet_clone` returned a packet (not null). -/
  cloneDetect : Bool

/-- A `push` made by the read loop on one of its two queues. -/
inductive QueuePush where
  | hlsQueue (p : AVPacket)
  | detectQueue (p : AVPacket)
deriving DecidableEq

/-- The size test guarding the detect queue: `detectQueue.size() < 30`. -/
def detectHasRoom (size : Nat) : Bool := decide (size < 30)

/-- The body of the `if (packet->stream_index == videoStreamIndex)` block of
one loop pass: the pushes it makes, in order. -/
def fanOut (it : Iteration) : List QueuePush :=
  -- Packet 1 for HLS
  (if it.cloneHLS then [QueuePush.hlsQueue it.packet] else []) ++
  -- Packet 2 for Detection
  (if detectHasRoom it.detectSize then
     (if it.cloneDetect then [QueuePush.detectQueue it.packet] else [])
   else [])

namespace RTSPStreamer

/-- `RTSPStreamer::recordLoop` run over the successive observations of its
loop passes: the pushes made on the two queues, in order.  The loop is left at
the first pass that sees `shouldStop` set or a negative read result. -/
def recordLoop (s : RTSPStreamer) : List Iteration → List QueuePush
  | [] => []
  | it :: rest =>
    if it.shouldStop then []
    else if it.ret < 0 then []
    else
      (if it.packet.stream_index = s.videoStreamIndex then fanOut it else []) ++
        recordLoop s rest

end RTSPStreamer

/-- The packets pushed to the archive (HLS) queue, in push order. -/
def hlsPushes : List QueuePush → List AVPacket
  | [] => []
  | QueuePush.hlsQueue p :: ps => p :: hlsPushes ps
  | QueuePush.detectQueue _ :: ps => hlsPushes ps

/-- The packets pushed to the detect queue, in push order. -/
def detectPushes : List QueuePush → List AVPacket
  | [] => []
  | QueuePush.detectQueue p :: ps => p :: detectPushes ps
  | QueuePush.hlsQueue _ :: ps => detectPushes ps

/-! ## The detect queue between the ingestor and the detection worker -/

/-- The detect queue and the position of the single ingestor thread relative
to it: `admitted = some p` when the ingestor has seen `detectQueue.size() < 30`
hold for packet `p` and has not yet reached `detectQueue.push`. -/
structure DetectState where
  detectQueue : SafeQueue AVPacket
  admitted : Option AVPacket

/-- The atomic steps that touch the detect queue (`src/RTSPStreamer.cpp`,
`src/main.cpp`). -/
inductive DetectStep where
  /-- Ingestor: evaluate `detectQueue.size() < 30` for the packet just read. -/
  | sizeCheck (p : AVPacket)
  /-- Ingestor: `av_packet_clone` (non-null or null) and, if non-null, `push`. -/
  | clonePush (cloneOk : Bool)
  /-- Detection worker: `detectQueue.pop`. -/
  | pop
  /-- Orchestrator: `detectQueue.stop()`. -/
  | stop

namespace DetectState

/-- The state when the threads start: a freshly constructed queue. -/
def initial : DetectState := { detectQueue := SafeQueue.new, admitted := none }

/-- One atomic step.  A step that is not enabled for its thread (a size check
while the ingestor is between its check and its push, a push with no check
before it, a pop that blocks) leaves the state as it is. -/
def step (d : DetectState) : DetectStep → DetectState
  | DetectStep.sizeCheck p =>
    match d.admitted with
    | some _ => d
    | none => if detectHasRoom d.detectQueue.size then { d with admitted := some p } else d
  | DetectStep.clonePush cloneOk =>
    match d.admitted with
    | none => d
    | some p =>
      { detectQueue := if cloneOk then d.detectQueue.push p else d.detectQueue,
        admitted := none }
  | DetectStep.pop =>
    match d.detectQueue.pop with
    | none => d
    | some (q, _) => { d with detectQueue := q }
  | DetectStep.stop => { d with detectQueue := d.detectQueue.stop }

/-- The state after an interleaving of steps, oldest first. -/
def run (d : DetectState) (steps : List DetectStep) : DetectState :=
  steps.foldl step d

end DetectState

/-- The bound kept by every step on the detect queue: the queued packets, plus
the one packet the ingestor may have admitted and not yet pushed, number at
most 30. -/
def DetectState.bounded (d : DetectState) : Prop :=
  d.detectQueue.size + (if d.admitted.isSome then 1 else 0) ≤ 30

/-! ## Detection worker (src/main.cpp) and persistence sink (src/DatabaseHandler.cpp) -/

/-- A C `float`, carried as its bit pattern: the sources pass the confidence on
and do no arithmetic on it. -/
structure CFloat where
  bits : Nat
deriving DecidableEq

/-- The library's `cv::Rect`. -/
structure Rect where
  x : Int
  y : Int
  width : Int
  height : Int
deriving DecidableEq

/-- `struct Detection` (src/YoloDetector.hpp). -/
structure Detection where
  class_id : Int
  confidence : CFloat
  box : Rect
  className : String
deriving DecidableEq

/-- The fields of `std::tm` that the format "%Y%m%d_%H%M%S" prints. -/
structure Tm where
  tm_sec : Nat
  tm_min : Nat
  tm_hour : Nat
  tm_mday : Nat
  tm_mon : Nat
  tm_year : Nat
deriving DecidableEq

/-- What the detection worker reads off the clock for one frame:
`*std::localtime(&time)` and `ms.count()`, the milliseconds within the second. -/
structure ClockReading where
  localtime : Tm
  ms : Nat
deriving DecidableEq

/-- A field printed by `std::put_time` as two decimal digits, zero padded. -/
def twoDigits (n : Nat) : String :=
  if n < 10 then "0" ++ toString n else toString n

/-- `std::put_time(tm, "%Y%m%d_%H%M%S")`: the year `tm_year + 1900` in decimal,
then month `tm_mon + 1`, day, an underscore, hour, minute and second, each of
these five as two digits. -/
def put_time (t : Tm) : String :=
  toString (t.tm_year + 1900) ++ twoDigits (t.tm_mon + 1) ++ twoDigits t.tm_mday ++ "_" ++
    twoDigits t.tm_hour ++ twoDigits t.tm_min ++ twoDigits t.tm_sec

/-- The string `timestamp` of `detectorWorker`:
`ss << std::put_time(...) << "_" << ms.count()`. -/
def timestampOf (clock : ClockReading) : String :=
  put_time clock.localtime ++ "_" ++ toString clock.ms

/-- The string `filename` of `detectorWorker`. -/
def frameFilename (timestamp : String) : String :=
  "detected_frames/frame_" ++ timestamp ++ ".jpg"

/-- The library's `ExecStatusType` (result status of a database command). -/
inductive ExecStatusType where
  | PGRES_EMPTY_QUERY
  | PGRES_COMMAND_OK
  | PGRES_TUPLES_OK
  | PGRES_BAD_RESPONSE
  | PGRES_NONFATAL_ERROR
  | PGRES_FATAL_ERROR
deriving DecidableEq

/-- The data member of `class DatabaseHandler`: the connection pointer. -/
structure DatabaseHandler where
  conn : Option Nat
deriving DecidableEq

/-- `DatabaseHandler::logDetection`: the `bool` result.  The argument `status`
is the `PQresultStatus` of the `INSERT` this call sends (read only when the
connection is not null). -/
def DatabaseHandler.logDetection (db : DatabaseHandler) (status : ExecStatusType)
    (_deviceName _className : String) (_confidence : CFloat)
    (_timestamp _framePath : String) : Bool :=
  match db.conn with
  | none => false
  | some _ =>
    if status ≠ ExecStatusType.PGRES_COMMAND_OK then false
    else true

/-- What the detection worker does to the outside for one frame. -/
inductive WorkerAction where
  /-- `cv::imwrite(filename, img)`. -/
  | imwrite (filename : String)
  /-- `dbHandler->logDetection(...)` with its arguments and its result. -/
  | logDetection (deviceName className : String) (confidence : CFloat)
      (timestamp framePath : String) (result : Bool)
deriving DecidableEq

/-- The loop `for (const auto& det : detections)` of `detectorWorker`; `i` counts
the calls made so far and `statusOf i` is the database status of call `i`. -/
def logDetections (db : DatabaseHandler) (statusOf : Nat → ExecStatusType)
    (timestamp filename : String) : List Detection → Nat → List WorkerAction
  | [], _ => []
  | det :: rest, i =>
    WorkerAction.logDetection "cam1" det.className det.confidence timestamp filename
        (db.logDetection (statusOf i) "cam1" det.className det.confidence timestamp filename)
      :: logDetections db statusOf timestamp filename rest (i + 1)

/-- The part of `detectorWorker` that follows `detector->detect` for one decoded
frame: the actions taken, in order, given the detections of the frame and the
clock reading. -/
def detectorWorkerFrame (db : DatabaseHandler) (statusOf : Nat → ExecStatusType)
    (detections : List Detection) (clock : ClockReading) : List WorkerAction :=
  if !detections.isEmpty then
    -- Save frame
    let timestamp := timestampOf clock
    let filename := frameFilename timestamp
    -- Log to Database
    WorkerAction.imwrite filename :: logDetections db statusOf timestamp filename detections 0
  else []

/-- The arguments of one call of the sink. -/
structure SinkCall where
  deviceName : String
  className : String
  confidence : CFloat
  timestamp : String
  framePath : String
deriving DecidableEq

/-- The image files written by a list of actions, in order. -/
def imagesWritten : List WorkerAction → List String
  | [] => []
  | WorkerAction.imwrite f :: as => f :: imagesWritten as
  | WorkerAction.logDetection _ _ _ _ _ _ :: as => imagesWritten as

/-- The sink calls made by a list of actions, in order. -/
def sinkCalls : List WorkerAction → List SinkCall
  | [] => []
  | WorkerAction.imwrite _ :: as => sinkCalls as
  | WorkerAction.logDetection d c f t p _ :: as =>
    { deviceName := d, className := c, confidence := f, timestamp := t, framePath := p }
      :: sinkCalls as

/-- The results of the sink calls made by a list of actions, in order. -/
def sinkResults : List WorkerAction → List Bool
  | [] => []
  | WorkerAction.imwrite _ :: as => sinkResults as
  | WorkerAction.logDetection _ _ _ _ _ r :: as => r :: sinkResults as

/-- Order of capture instants under one local time offset: the earlier instant
has the smaller reading, compared field by field from the year down to the
millisecond. -/
def ClockReading.earlier (a b : ClockReading) : Prop :=
  a.localtime.tm_year < b.localtime.tm_year ∨
  (a.localtime.tm_year = b.localtime.tm_year ∧
    (a.localtime.tm_mon < b.localtime.tm_mon ∨
    (a.localtime.tm_mon = b.localtime.tm_mon ∧
      (a.localtime.tm_mday < b.localtime.tm_mday ∨
      (a.localtime.tm_mday = b.localtime.tm_mday ∧
        (a.localtime.tm_hour < b.localtime.tm_hour ∨
        (a.localtime.tm_hour = b.localtime.tm_hour ∧
          (a.localtime.tm_min < b.localtime.tm_min ∨
          (a.localtime.tm_min = b.localtime.tm_min ∧
            (a.localtime.tm_sec < b.localtime.tm_sec ∨
            (a.localtime.tm_sec = b.localtime.tm_sec ∧ a.ms < b.ms)))))))))))

instance (a b : ClockReading) : Decidable (a.earlier b) := by
  unfold ClockReading.earlier; exact inferInstance

/-- The reading at local time 2024-05-17 12:30:45 and `ms` milliseconds. -/
def exampleClock (ms : Nat) : ClockReading :=
  { localtime := { tm_sec := 45, tm_min := 30, tm_hour := 12, tm_mday := 17, tm_mon := 4,
                   tm_year := 124 },
    ms := ms }

/-- The detection of the end-to-end test of the specification: class "person",
confidence 0.9 (bit pattern 0x3F666666), box (0, 0, 10, 10). -/
def personDetection : Detection :=
  { class_id := 0, confidence := { bits := 0x3F666666 },
    box := { x := 0, y := 0, width := 10, height := 10 }, className := "person" }

/-- The number `n` written with exactly `w` decimal digits, most significant
first, with leading zeros (the low `w` digits when `n` has more). -/
def digitsW : Nat → Nat → List Char
  | 0, _ => []
  | w + 1, n => digitsW w (n / 10) ++ [Nat.digitChar (n % 10)]

/-- A clock reading as `std::localtime` and the millisecond remainder deliver
it, with a year of four digits: the ranges of the `std::tm` fields, the year
`tm_year + 1900` at most 9999, and at most 999 milliseconds. -/
def ClockReading.valid (c : ClockReading) : Prop :=
  c.localtime.tm_year ≤ 8099 ∧ c.localtime.tm_mon ≤ 11 ∧ c.localtime.tm_mday ≤ 31 ∧
  c.localtime.tm_hour ≤ 23 ∧ c.localtime.tm_min ≤ 59 ∧ c.localtime.tm_sec ≤ 60 ∧
  c.ms ≤ 999

instance (c : ClockReading) : Decidable c.valid := by
  unfold ClockReading.valid; exact inferInstance

/-! ## Reference behaviour and concrete inputs -/

/-- The last+1 repair of a sequence of rescaled presentation timestamps, as the
specification words it: the first value is kept; a later value is kept when it
exceeds the previous output and is replaced by the previous output plus one
otherwise.  The first argument is the previous output, if any. -/
def repairReference : Option Int → List Int → List Int
  | _, [] => []
  | none, r :: rs => r :: repairReference (some r) rs
  | some last, r :: rs =>
    let out := if r > last then r else last + 1
    out :: repairReference (some out) rs

/-- `av_packet_rescale_ts` between equal time bases: the packet is unchanged.
Used for the concrete runs below, where both time bases are 1/90000. -/
def rescaleEqualBases (p : AVPacket) (_src _dst : AVRational) : AVPacket := p

/-- The 90 kHz time base. -/
def tb90k : AVRational := { num := 1, den := 90000 }

/-- Codec parameters of a video stream, for the concrete runs. -/
def exampleCodecParameters : AVCodecParameters :=
  { codec_type := AVMediaType.AVMEDIA_TYPE_VIDEO, codec_id := 27, codec_tag := 7,
    extradata := [] }

/-- A muxer on which every call of `init` succeeds; the output stream gets the
time base 1/90000. -/
def exampleMuxerEnv : MuxerEnv :=
  { alloc_output_context2 := some { nofile := true, hls_time := none, hls_list_size := none },
    new_stream := some { index := 0, time_base := { num := 0, den := 1 },
                         codecpar := { codec_type := AVMediaType.AVMEDIA_TYPE_UNKNOWN,
                                       codec_id := 0, codec_tag := 0, extradata := [] } },
    parameters_copy := 0, avio_open := 0, write_header := 0,
    header_time_base := tb90k }

/-- A freshly constructed recorder after a successful `init` with input time
base 1/90000. -/
def exampleRecorder : HLSRecorder :=
  (HLSRecorder.init exampleMuxerEnv (HLSRecorder.new { num := 0, den := 0 })
    "hls_output/stream.m3u8" (some exampleCodecParameters) tb90k).1

/-- A packet of input stream 0 with the given presentation timestamp. -/
def examplePacket (pts : Int) : AVPacket :=
  { pts := pts, dts := pts, duration := 3000, stream_index := 0, data := [] }

/-- The presentation timestamps the example recorder submits to the muxer for
packets with the given source presentation timestamps. -/
def exampleRun (ptss : List Int) : Option (List Int) :=
  (HLSRecorder.writePackets rescaleEqualBases exampleRecorder
    (ptss.map (fun t => some (examplePacket t)))).map (fun x => submittedPts x.2)

/-- The loop passes that precede the first read failure (the first pass whose
`av_read_frame` result is negative). -/
def beforeFirstFailure (its : List Iteration) : List Iteration :=
  its.takeWhile (fun it => decide (0 ≤ it.ret))

/-- Whether the packet read in a pass belongs to the tracked stream. -/
def isTracked (s : RTSPStreamer) (it : Iteration) : Bool :=
  decide (it.packet.stream_index = s.videoStreamIndex)

/-- The packets of the tracked stream read before the first read failure, in
read order. -/
def trackedBeforeFailure (s : RTSPStreamer) (its : List Iteration) : List AVPacket :=
  ((beforeFirstFailure its).filter (isTracked s)).map Iteration.packet

/-- A source with an audio stream followed by two video streams, on which every
call of `open` succeeds. -/
def exampleDemuxEnv : DemuxEnv :=
  { open_input := 0,
    open_input_ctx := some { streams := [] },
    find_stream_info := 0,
    streams :=
      [ { index := 0, time_base := { num := 1, den := 48000 },
          codecpar := { codec_type := AVMediaType.AVMEDIA_TYPE_AUDIO, codec_id := 86018,
                        codec_tag := 0, extradata := [] } },
        { index := 1, time_base := tb90k, codecpar := exampleCodecParameters },
        { index := 2, time_base := { num := 1, den := 25 },
          codecpar := exampleCodecParameters } ] }

/-- The streamer after `open` on the example source: it tracks stream 1. -/
def exampleStreamer : RTSPStreamer :=
  { fmtCtx := some { streams := exampleDemuxEnv.streams }, videoStreamIndex := 1,
    rtspUrl := "rtsp://cam", shouldStop := false }

/-- A loop pass that reads a packet of the tracked stream 1 with the given
presentation timestamp, with the given clone outcomes and observed detect
queue size. -/
def examplePass (pts : Int) (cloneHLS : Bool) (detectSize : Nat) (cloneDetect : Bool) :
    Iteration :=
  { shouldStop := false, ret := 0,
    packet := { pts := pts, dts := pts, duration := 3000, stream_index := 1, data := [] },
    cloneHLS := cloneHLS, detectSize := detectSize, cloneDetect := cloneDetect }

/-- Whether a stream is of video type (the test of the loop in `open`). -/
def isVideo (st : AVStream) : Bool :=
  decide (st.codecpar.codec_type = AVMediaType.AVMEDIA_TYPE_VIDEO)

/-- A streamer on which `open` has not succeeded: a freshly constructed one, or
one on which every call of `open` so far returned `false`. -/
inductive NeverOpened : RTSPStreamer → Prop where
  | fresh : NeverOpened RTSPStreamer.new
  | failed (s : RTSPStreamer) (env : DemuxEnv) (url : String) (s1 : RTSPStreamer) :
      NeverOpened s → s.openUrl env url = some (s1, false) → NeverOpened s1

/-- The presentation timestamp of a packet once rescaled from the recorder's
input time base into the time base of the output stream `st`. -/
def rescaledPts (rescale_ts : AVPacket → AVRational → AVRational → AVPacket)
    (r : HLSRecorder) (st : AVStream) (p : AVPacket) : Int :=
  (rescale_ts p r.inTimebase st.time_base).pts

/-- The packets submitted to `av_interleaved_write_frame`, in submission
order. -/
def submittedPackets : List MuxerCall → List AVPacket
  | [] => []
  | MuxerCall.interleaved_write_frame pkt :: cs => pkt :: submittedPackets cs
  | _ :: cs => submittedPackets cs

/-- The packets the example recorder submits to the muxer for packets with the
given source presentation timestamps. -/
def exampleRunPackets (ptss : List Int) : Option (List AVPacket) :=
  (HLSRecorder.writePackets rescaleEqualBases exampleRecorder
    (ptss.map (fun t => some (examplePacket t)))).map (fun x => submittedPackets x.2)

/-- A muxer whose `avformat_write_header` fails (all earlier calls succeed). -/
def failingHeaderEnv : MuxerEnv := { exampleMuxerEnv with write_header := -22 }

/-- The output stream of the example recorder. -/
def exampleOutStream : AVStream :=
  { index := 0, time_base := tb90k,
    codecpar := { exampleCodecParameters with codec_tag := 0 } }

/-- The output context of the example recorder. -/
def exampleOutputContext : OutputContext :=
  { nofile := true, hls_time := some "2", hls_list_size := some "5" }

/-! ## Theorems -/

/-- C1, evaluated on the code: on a freshly and successfully initialised
recorder, packets with presentation timestamps -1 and then -5 (equal time
bases) are submitted to the muxer with timestamps -1 and -5, a sequence that is
not strictly increasing.  The emitted -1 equals the value `lastPts` holds before
any packet, so the guard `lastPts != -1` skips the repair of the next packet. -/
theorem C1_sentinel_defeats_monotonic_repair :
    exampleRecorder.initialized = true ∧ exampleRecorder.lastPts = -1 ∧
    exampleRun [-1, -5] = some [-1, -5] ∧
    ¬ List.Pairwise (fun a b => a < b) ([-1, -5] : List Int) := by
  refine ⟨by decide, by decide, by decide, by decide⟩

/-- Conservation of items on a queue: what the pops handed out, followed by
what is still queued, is what was queued at the start followed by what was
pushed. -/
theorem runOps_conserves {T : Type} (ops : List (QueueOp T)) (q : SafeQueue T) :
    (runOps q ops).2 ++ (runOps q ops).1.queue = q.queue ++ pushedValues ops := by
  induction ops generalizing q with
  | nil => simp [runOps, pushedValues]
  | cons op ops ih =>
    cases op with
    | push v =>
      simp only [runOps, pushedValues]
      rw [ih]
      simp [SafeQueue.push]
    | stop =>
      simp only [runOps, pushedValues]
      rw [ih]
      simp [SafeQueue.stop]
    | pop =>
      obtain ⟨items, flag⟩ := q
      cases items with
      | nil =>
        cases flag <;>
          simp [runOps, pushedValues, SafeQueue.pop, SafeQueue.popReady, ih]
      | cons x rest =>
        have h := ih { queue := rest, stop_flag := flag }
        simp only [runOps, pushedValues, SafeQueue.pop, SafeQueue.popReady,
          List.isEmpty_cons, Bool.not_false, Bool.true_or, Bool.not_true,
          Bool.false_eq_true, if_false, List.cons_append]
        simp only [List.cons_append] at h ⊢
        rw [h]

/-- C2: on a freshly constructed queue, for every interleaving of atomic push,
pop and stop steps, the values returned by the successful pops are, in order,
the first pushed values: the k-th successful pop returns the k-th pushed value
(the returned values followed by the values still queued are exactly the
pushed values in push order). -/
theorem C2_pops_follow_push_order {T : Type} (ops : List (QueueOp T)) :
    (runOps SafeQueue.new ops).2 ++ (runOps SafeQueue.new ops).1.queue = pushedValues ops ∧
    (runOps SafeQueue.new ops).2
      = (pushedValues ops).take (runOps SafeQueue.new ops).2.length ∧
    ∀ k, k < (runOps SafeQueue.new ops).2.length →
      (runOps SafeQueue.new ops).2[k]? = (pushedValues ops)[k]? := by
  have h : (runOps SafeQueue.new ops).2 ++ (runOps SafeQueue.new ops).1.queue
      = pushedValues ops := by
    have h0 := runOps_conserves ops (SafeQueue.new : SafeQueue T)
    rw [h0]
    simp [SafeQueue.new]
  refine ⟨h, ?_, ?_⟩
  · conv_rhs => rw [← h]
    simp
  · intro k hk
    rw [← h, List.getElem?_append_left hk]

/-- Draining a stopped queue: as many successful pops as there are items, in
queue order, then one pop that returns `false`; no call blocks. -/
theorem popSeq_stopped {T : Type} (items : List T) :
    popSeq (items.length + 1) ({ queue := items, stop_flag := true } : SafeQueue T)
      = some (items.map some ++ [none], { queue := [], stop_flag := true }) := by
  induction items with
  | nil => simp [popSeq, SafeQueue.pop, SafeQueue.popReady]
  | cons x rest ih =>
    rw [List.length_cons, popSeq]
    simp [SafeQueue.pop, SafeQueue.popReady, ih]

/-- The successful part of the drain of a stopped queue. -/
theorem popSeq_stopped_items {T : Type} (items : List T) :
    popSeq items.length ({ queue := items, stop_flag := true } : SafeQueue T)
      = some (items.map some, { queue := [], stop_flag := true }) := by
  induction items with
  | nil => simp [popSeq]
  | cons x rest ih =>
    rw [List.length_cons, popSeq]
    simp [SafeQueue.pop, SafeQueue.popReady, ih]

/-- C3: for every queue holding N items, once `stop()` has been called and with
no push afterwards, the next N calls of `pop` all return `true` and hand out the
queued items in order, the (N+1)-th call returns `false`, none of these calls
blocks, and `pop` on an empty stopped queue returns `false` without waiting. -/
theorem C3_stopped_queue_drains_then_ends {T : Type} (q : SafeQueue T) :
    popSeq q.size q.stop = some (q.queue.map some, { queue := [], stop_flag := true }) ∧
    popSeq (q.size + 1) q.stop
      = some (q.queue.map some ++ [none], { queue := [], stop_flag := true }) ∧
    ({ queue := [], stop_flag := true } : SafeQueue T).pop
      = some ({ queue := [], stop_flag := true }, none) := by
  obtain ⟨items, flag⟩ := q
  refine ⟨popSeq_stopped_items items, popSeq_stopped items, ?_⟩
  simp [SafeQueue.pop, SafeQueue.popReady]

/-- The archive pushes of two stretches of pushes. -/
theorem hlsPushes_append (a b : List QueuePush) :
    hlsPushes (a ++ b) = hlsPushes a ++ hlsPushes b := by
  induction a with
  | nil => rfl
  | cons x xs ih => cases x <;> simp [hlsPushes, ih]

/-- The detect pushes of two stretches of pushes. -/
theorem detectPushes_append (a b : List QueuePush) :
    detectPushes (a ++ b) = detectPushes a ++ detectPushes b := by
  induction a with
  | nil => rfl
  | cons x xs ih => cases x <;> simp [detectPushes, ih]

/-- The archive pushes of one fan-out: the packet, if its first clone exists. -/
theorem hlsPushes_fanOut (it : Iteration) :
    hlsPushes (fanOut it) = if it.cloneHLS then [it.packet] else [] := by
  unfold fanOut
  cases it.cloneHLS <;> cases detectHasRoom it.detectSize <;> cases it.cloneDetect <;> rfl

/-- The detect pushes of one fan-out: the packet, if the queue had room and the
second clone exists. -/
theorem detectPushes_fanOut (it : Iteration) :
    detectPushes (fanOut it)
      = if detectHasRoom it.detectSize && it.cloneDetect then [it.packet] else [] := by
  unfold fanOut
  cases it.cloneHLS <;> cases detectHasRoom it.detectSize <;> cases it.cloneDetect <;> rfl

/-- C4 as stated fails on the code: a pass that reads a packet of the tracked
stream while the stop flag is clear, and whose archive clone comes back null,
pushes nothing to the archive queue, although the packet precedes every read
failure. -/
theorem C4_null_archive_clone_is_not_pushed :
    (examplePass 5 false 0 true).shouldStop = false ∧
    trackedBeforeFailure exampleStreamer [examplePass 5 false 0 true]
      = [(examplePass 5 false 0 true).packet] ∧
    hlsPushes (exampleStreamer.recordLoop [examplePass 5 false 0 true]) = [] := by
  refine ⟨rfl, by decide, by decide⟩

/-- C4, amended: with the stop flag never observed set, the packets pushed to
the archive queue are exactly, in read order, the packets of the tracked stream
read before the first read failure whose archive clone is not null, whatever
the observed detect-queue sizes; the packets pushed to the detect queue are
those among the same passes that additionally met the size test and whose
detect clone is not null.  So no packet of another stream and no packet read
after the first failure is pushed to either queue. -/
theorem C4_archive_gets_cloned_tracked_packets (s : RTSPStreamer) (its : List Iteration)
    (hstop : ∀ it ∈ its, it.shouldStop = false) :
    hlsPushes (s.recordLoop its)
      = (((beforeFirstFailure its).filter (isTracked s)).filter
          (fun it => it.cloneHLS)).map Iteration.packet ∧
    detectPushes (s.recordLoop its)
      = (((beforeFirstFailure its).filter (isTracked s)).filter
          (fun it => detectHasRoom it.detectSize && it.cloneDetect)).map Iteration.packet := by
  induction its with
  | nil => exact ⟨rfl, rfl⟩
  | cons it rest ih =>
    have hit : it.shouldStop = false := hstop it (List.mem_cons_self it rest)
    have ih1 := ih (fun x hx => hstop x (List.mem_cons_of_mem it hx))
    by_cases hret : it.ret < 0
    · have h0 : ¬ (0 ≤ it.ret) := by omega
      simp [RTSPStreamer.recordLoop, hit, hret, h0, beforeFirstFailure, hlsPushes,
        detectPushes]
    · have h0 : 0 ≤ it.ret := by omega
      by_cases htr : it.packet.stream_index = s.videoStreamIndex
      · have htr1 : isTracked s it = true := by simp [isTracked, htr]
        obtain ⟨ihh, ihd⟩ := ih1
        unfold beforeFirstFailure at ihh ihd ⊢
        constructor
        · simp only [RTSPStreamer.recordLoop, hit, hret, htr, h0, if_true, if_false,
            Bool.false_eq_true, hlsPushes_append, hlsPushes_fanOut, List.takeWhile_cons,
            decide_True, List.filter_cons, htr1, ihh]
          cases it.cloneHLS <;> simp
        · simp only [RTSPStreamer.recordLoop, hit, hret, htr, h0, if_true, if_false,
            Bool.false_eq_true, detectPushes_append, detectPushes_fanOut,
            List.takeWhile_cons, decide_True, List.filter_cons, htr1, ihd]
          cases (detectHasRoom it.detectSize && it.cloneDetect) <;> simp
      · have htr1 : isTracked s it = false := by simp [isTracked, htr]
        obtain ⟨ihh, ihd⟩ := ih1
        unfold beforeFirstFailure at ihh ihd ⊢
        simp [RTSPStreamer.recordLoop, hit, hret, htr, h0, List.takeWhile_cons,
          List.filter_cons, htr1, ihh, ihd]

/-- C4 amended, at a concrete run: three tracked packets, the second with a
null archive clone, then a read failure, then one more packet. -/
theorem C4_archive_gets_cloned_tracked_packets_witness :
    (∀ it ∈ [examplePass 1 true 0 true, examplePass 2 false 30 true,
        examplePass 3 true 30 true, { examplePass 4 true 0 true with ret := -5 },
        examplePass 5 true 0 true], it.shouldStop = false) ∧
    hlsPushes (exampleStreamer.recordLoop
      [examplePass 1 true 0 true, examplePass 2 false 30 true,
        examplePass 3 true 30 true, { examplePass 4 true 0 true with ret := -5 },
        examplePass 5 true 0 true])
      = [(examplePass 1 true 0 true).packet, (examplePass 3 true 30 true).packet] :=
  ⟨by decide,
   (C4_archive_gets_cloned_tracked_packets exampleStreamer _ (by decide)).1.trans (by decide)⟩

/-- C5 as stated fails on the code: a tracked packet read while the detect queue
is empty (size 0, below 30) is not pushed to the detect queue when its detect
clone comes back null. -/
theorem C5_null_detect_clone_is_not_pushed :
    (examplePass 5 true 0 false).shouldStop = false ∧
    0 ≤ (examplePass 5 true 0 false).ret ∧
    (examplePass 5 true 0 false).packet.stream_index = exampleStreamer.videoStreamIndex ∧
    (examplePass 5 true 0 false).detectSize < 30 ∧
    detectPushes (exampleStreamer.recordLoop [examplePass 5 true 0 false]) = [] := by
  refine ⟨rfl, by decide, by decide, by decide, by decide⟩

/-- C5, amended: a pass that reads a packet of the tracked stream (stop flag
clear, read result not negative) makes exactly the pushes of `fanOut` before the
loop goes on; the packet is pushed to the detect queue if and only if the
observed detect-queue size is below 30 and the detect clone is not null; when
the size is 30 or more nothing is pushed to the detect queue; and the packet is
pushed to the archive queue exactly when the archive clone is not null,
whatever the observed size. -/
theorem C5_detect_push_iff_room_and_clone (s : RTSPStreamer) (it : Iteration)
    (rest : List Iteration) (hstop : it.shouldStop = false) (hret : 0 ≤ it.ret)
    (htracked : it.packet.stream_index = s.videoStreamIndex) :
    s.recordLoop (it :: rest) = fanOut it ++ s.recordLoop rest ∧
    (detectPushes (fanOut it) = [it.packet] ↔ (it.detectSize < 30 ∧ it.cloneDetect = true)) ∧
    (detectPushes (fanOut it) = [] ↔ ¬ (it.detectSize < 30 ∧ it.cloneDetect = true)) ∧
    (30 ≤ it.detectSize → detectPushes (fanOut it) = []) ∧
    hlsPushes (fanOut it) = (if it.cloneHLS then [it.packet] else []) := by
  have hnot : ¬ it.ret < 0 := by omega
  refine ⟨by simp [RTSPStreamer.recordLoop, hstop, hnot, htracked], ?_, ?_, ?_,
    hlsPushes_fanOut it⟩
  · rw [detectPushes_fanOut]
    by_cases h : it.detectSize < 30 <;> cases hc : it.cloneDetect <;>
      simp [detectHasRoom, h]
  · rw [detectPushes_fanOut]
    by_cases h : it.detectSize < 30 <;> cases hc : it.cloneDetect <;>
      simp [detectHasRoom, h]
  · intro h30
    rw [detectPushes_fanOut]
    have h : ¬ it.detectSize < 30 := by omega
    simp [detectHasRoom, h]

/-- C5 amended, at a concrete pass: the detect queue is seen with 30 items, the
packet goes to the archive queue only. -/
theorem C5_detect_push_iff_room_and_clone_witness :
    (examplePass 5 true 30 true).shouldStop = false ∧
    0 ≤ (examplePass 5 true 30 true).ret ∧
    (examplePass 5 true 30 true).packet.stream_index = exampleStreamer.videoStreamIndex ∧
    detectPushes (fanOut (examplePass 5 true 30 true)) = [] ∧
    hlsPushes (fanOut (examplePass 5 true 30 true)) = [(examplePass 5 true 30 true).packet] :=
  ⟨rfl, by decide, by decide,
   (C5_detect_push_iff_room_and_clone exampleStreamer (examplePass 5 true 30 true) []
     rfl (by decide) (by decide)).2.2.2.1 (by decide),
   (C5_detect_push_iff_room_and_clone exampleStreamer (examplePass 5 true 30 true) []
     rfl (by decide) (by decide)).2.2.2.2⟩

/-- Every atomic step keeps the bound. -/
theorem DetectState.step_bounded (d : DetectState) (st : DetectStep) (h : d.bounded) :
    (d.step st).bounded := by
  obtain ⟨⟨items, flag⟩, adm⟩ := d
  unfold DetectState.bounded at h ⊢
  cases st with
  | sizeCheck p =>
    cases adm with
    | some a => simpa [DetectState.step] using h
    | none =>
      by_cases hroom : items.length < 30
      · simp [DetectState.step, detectHasRoom, SafeQueue.size, hroom]
        omega
      · simpa [DetectState.step, detectHasRoom, SafeQueue.size, hroom] using h
  | clonePush ok =>
    cases adm with
    | none => simpa [DetectState.step] using h
    | some a =>
      cases ok
      · simp [DetectState.step, SafeQueue.size] at h ⊢
        omega
      · simp [DetectState.step, SafeQueue.size, SafeQueue.push] at h ⊢
        omega
  | pop =>
    cases items with
    | nil =>
      cases flag <;> simpa [DetectState.step, SafeQueue.pop, SafeQueue.popReady] using h
    | cons x rest =>
      simp [DetectState.step, SafeQueue.pop, SafeQueue.popReady, SafeQueue.size] at h ⊢
      omega
  | stop => simpa [DetectState.step, SafeQueue.stop, SafeQueue.size] using h

/-- Every interleaving of steps keeps the bound. -/
theorem DetectState.run_bounded (steps : List DetectStep) (d : DetectState)
    (h : d.bounded) : (d.run steps).bounded := by
  induction steps generalizing d with
  | nil => exact h
  | cons st rest ih =>
    exact ih (d.step st) (DetectState.step_bounded d st h)

/-- C6: starting from an empty detect queue, after every interleaving of the
ingestor's steps (the size check and, as a separate later step, the push), the
detection worker's pops and the orchestrator's stop, the detect queue holds at
most 30 packets. -/
theorem C6_detect_queue_holds_at_most_30 (steps : List DetectStep) :
    (DetectState.initial.run steps).detectQueue.size ≤ 30 := by
  have h0 : DetectState.initial.bounded := by
    simp [DetectState.bounded, DetectState.initial, SafeQueue.new, SafeQueue.size]
  have h := DetectState.run_bounded steps DetectState.initial h0
  unfold DetectState.bounded at h
  omega

/-- C7, evaluated on the code.  With equal time bases the inputs [5, 5, 3, 9] are
emitted as [5, 6, 7, 9], as the last+1 reference says.  The inputs [-1, -5] are
emitted as [-1, -5] where the reference gives [-1, 0], and the inputs
[-3, -3, -3, -3] as [-3, -2, -1, -3] where the reference gives [-3, -2, -1, 0]:
once -1 has been emitted, `lastPts` equals its initial value and the guard
`lastPts != -1` skips the repair of the next packet. -/
theorem C7_repair_skipped_after_emitting_minus_one :
    exampleRun [5, 5, 3, 9] = some [5, 6, 7, 9] ∧
    repairReference none [5, 5, 3, 9] = [5, 6, 7, 9] ∧
    exampleRun [-1, -5] = some [-1, -5] ∧
    repairReference none [-1, -5] = [-1, 0] ∧
    exampleRun [-3, -3, -3, -3] = some [-3, -2, -1, -3] ∧
    repairReference none [-3, -3, -3, -3] = [-3, -2, -1, 0] := by
  refine ⟨by decide, by decide, by decide, by decide, by decide, by decide⟩

/-- C8: `finish` is idempotent.  For every recorder state a second `finish`
(or the destructor, which only calls `finish`) after a first one changes nothing
and makes no call on the muxer, so `finish` followed by the destructor makes the
same calls as one `finish`: the trailer is written and the context freed exactly
once when the session was active, and not at all otherwise. -/
theorem C8_finish_idempotent (r : HLSRecorder) :
    HLSRecorder.finish (HLSRecorder.finish r).1 = ((HLSRecorder.finish r).1, []) ∧
    HLSRecorder.destructor (HLSRecorder.finish r).1 = ((HLSRecorder.finish r).1, []) ∧
    (HLSRecorder.finish r).2 ++ (HLSRecorder.destructor (HLSRecorder.finish r).1).2
      = (HLSRecorder.finish r).2 ∧
    ((HLSRecorder.finish r).2 ++ (HLSRecorder.destructor (HLSRecorder.finish r).1).2).count
        MuxerCall.write_trailer
      = (if r.initialized && r.outFmtCtx.isSome then 1 else 0) ∧
    ((HLSRecorder.finish r).2 ++ (HLSRecorder.destructor (HLSRecorder.finish r).1).2).count
        MuxerCall.free_context
      = (if r.initialized && r.outFmtCtx.isSome then 1 else 0) ∧
    ((HLSRecorder.finish r).2 ++ (HLSRecorder.destructor (HLSRecorder.finish r).1).2).count
        MuxerCall.avio_closep ≤ 1 := by
  obtain ⟨ctx, st, tb, ini, last⟩ := r
  cases ini <;> cases ctx with
  | none => simp [HLSRecorder.finish, HLSRecorder.destructor]
  | some c =>
    cases hc : c.nofile <;>
      simp [HLSRecorder.finish, HLSRecorder.destructor, hc, List.count_cons]

/-- The conversion of a loop counter below 2^31 to `int` keeps its value. -/
theorem wrapInt32_of_lt (n : Nat) (h : n < 2 ^ 31) : wrapInt32 (n : Int) = (n : Int) := by
  unfold wrapInt32
  have h1 : (n : Int) < 2 ^ 31 := by exact_mod_cast h
  norm_num at h1 ⊢
  omega

/-- What the stream loop of `open` computes: -1 when no stream is of video
type, and otherwise the position, counted from the loop counter at entry, of
the first stream of video type. -/
theorem findVideoStream_spec (l : List AVStream) (i : Nat) (hb : i + l.length < 2 ^ 31) :
    (l.any isVideo = false ∧ findVideoStream l i = -1) ∨
    (∃ k st, l[k]? = some st ∧ isVideo st = true ∧
      (∀ j, j < k → ∀ st1, l[j]? = some st1 → isVideo st1 = false) ∧
      findVideoStream l i = ((i + k : Nat) : Int)) := by
  induction l generalizing i with
  | nil => exact Or.inl ⟨rfl, rfl⟩
  | cons st rest ih =>
    by_cases hv : st.codecpar.codec_type = AVMediaType.AVMEDIA_TYPE_VIDEO
    · refine Or.inr ⟨0, st, by simp, by simp [isVideo, hv], ?_, ?_⟩
      · intro j hj; omega
      · have hi : i < 2 ^ 31 := by omega
        simp [findVideoStream, hv, wrapInt32_of_lt i hi]
    · have hlen : (i + 1) + rest.length < 2 ^ 31 := by
        simp only [List.length_cons] at hb; omega
      have hst : isVideo st = false := by simp [isVideo, hv]
      rcases ih (i + 1) hlen with ⟨hany, hres⟩ | ⟨k, st1, hk, hvid, hmin, hres⟩
      · exact Or.inl ⟨by simp [List.any_cons, hst, hany], by simp [findVideoStream, hv, hres]⟩
      · refine Or.inr ⟨k + 1, st1, by simpa using hk, hvid, ?_, ?_⟩
        · intro j hj st2 hj2
          cases j with
          | zero =>
            simp only [List.getElem?_cons_zero, Option.some.injEq] at hj2
            rw [← hj2]; exact hst
          | succ j1 =>
            simp only [List.getElem?_cons_succ] at hj2
            exact hmin j1 (by omega) st2 hj2
        · simp only [findVideoStream, hv, if_false, hres]
          congr 1
          omega

/-- What `open` does once the transport is open and stream discovery has
succeeded: the context holds the discovered streams, `videoStreamIndex` is the
result of the stream loop, and the call returns whether that result is not -1. -/
theorem openUrl_after_discovery (env : DemuxEnv) (s : RTSPStreamer) (url : String)
    (ctx0 : InputContext) (hopen : 0 ≤ env.open_input)
    (hctx : env.open_input_ctx = some ctx0) (hinfo : 0 ≤ env.find_stream_info) :
    s.openUrl env url
      = some ({ fmtCtx := some { streams := env.streams },
                videoStreamIndex := findVideoStream env.streams 0,
                rtspUrl := url, shouldStop := s.shouldStop },
              !decide (findVideoStream env.streams 0 = -1)) := by
  have h1 : ¬ env.open_input < 0 := by omega
  have h2 : ¬ env.find_stream_info < 0 := by omega
  unfold RTSPStreamer.openUrl
  simp only [hctx, h1, h2, if_false]
  by_cases h : findVideoStream env.streams 0 = -1 <;> simp [h]

/-- A streamer on which `open` has not succeeded tracks no stream. -/
theorem NeverOpened.videoStreamIndex_eq (s : RTSPStreamer) (h : NeverOpened s) :
    s.videoStreamIndex = -1 := by
  induction h with
  | fresh => rfl
  | failed s env url s1 _ hfail ih =>
    unfold RTSPStreamer.openUrl at hfail
    by_cases h1 : env.open_input < 0
    · simp only [h1, if_true, Option.some.injEq, Prod.mk.injEq, and_true] at hfail
      rw [← hfail]; exact ih
    · simp only [h1, if_false] at hfail
      cases hctx : env.open_input_ctx with
      | none => simp [hctx] at hfail
      | some ctx0 =>
        simp only [hctx] at hfail
        by_cases h2 : env.find_stream_info < 0
        · simp only [h2, if_true, Option.some.injEq, Prod.mk.injEq, and_true] at hfail
          rw [← hfail]; exact ih
        · simp only [h2, if_false] at hfail
          by_cases h3 : findVideoStream env.streams 0 = -1
          · simp only [h3, if_true, Option.some.injEq, Prod.mk.injEq, and_true] at hfail
            rw [← hfail]
          · simp [h3] at hfail

/-- C9 as stated fails on the code: on a freshly constructed streamer
`getTimeBase` does not fail; it returns the time base 1/90000, the very value it
returns after a successful `open` on a source whose tracked stream has time base
1/90000. -/
theorem C9_getTimeBase_falls_back_to_default :
    RTSPStreamer.new.getTimeBase = some { num := 1, den := 90000 } ∧
    RTSPStreamer.new.openUrl exampleDemuxEnv "rtsp://cam" = some (exampleStreamer, true) ∧
    exampleStreamer.getTimeBase = RTSPStreamer.new.getTimeBase := by
  refine ⟨rfl, by decide, by decide⟩

/-- C9, amended: on a streamer on which `open` has not succeeded,
`getCodecParameters` returns the null pointer and `getTimeBase` returns the
default time base 1/90000; after a successful `open` the tracked index is that
of a video stream of the source and both getters return that stream's codec
parameters and time base. -/
theorem C9_getters_before_and_after_open (s0 s1 s2 : RTSPStreamer) (env : DemuxEnv)
    (url : String) (h0 : NeverOpened s0) (hlen : env.streams.length < 2 ^ 31)
    (hopen : s1.openUrl env url = some (s2, true)) :
    s0.getCodecParameters = some none ∧
    s0.getTimeBase = some { num := 1, den := 90000 } ∧
    ∃ (k : Nat) (st : AVStream), s2.videoStreamIndex = (k : Int) ∧ env.streams[k]? = some st ∧
      isVideo st = true ∧
      s2.getCodecParameters = some (some st.codecpar) ∧
      s2.getTimeBase = some st.time_base := by
  have hidx := NeverOpened.videoStreamIndex_eq s0 h0
  refine ⟨?_, ?_, ?_⟩
  · unfold RTSPStreamer.getCodecParameters
    cases s0.fmtCtx <;> simp [hidx]
  · unfold RTSPStreamer.getTimeBase
    cases s0.fmtCtx <;> simp [hidx]
  · unfold RTSPStreamer.openUrl at hopen
    by_cases h1 : env.open_input < 0
    · simp [h1] at hopen
    · simp only [h1, if_false] at hopen
      cases hctx : env.open_input_ctx with
      | none => simp [hctx] at hopen
      | some ctx0 =>
        simp only [hctx] at hopen
        by_cases h2 : env.find_stream_info < 0
        · simp [h2] at hopen
        · simp only [h2, if_false] at hopen
          by_cases h3 : findVideoStream env.streams 0 = -1
          · simp [h3] at hopen
          · simp only [h3, if_false, Option.some.injEq, Prod.mk.injEq, and_true] at hopen
            rcases findVideoStream_spec env.streams 0 (by omega) with
              ⟨_, hres⟩ | ⟨k, st, hk, hvid, _, hres⟩
            · exact absurd hres h3
            · refine ⟨k, st, ?_, hk, hvid, ?_, ?_⟩
              · rw [← hopen]; simp [hres]
              · rw [← hopen]
                simp [RTSPStreamer.getCodecParameters, hres, hk]
              · rw [← hopen]
                simp [RTSPStreamer.getTimeBase, hres, hk]

/-- C9 amended, at the example source: before `open` the getters give null and
1/90000; after it they give the parameters and time base of stream 1. -/
theorem C9_getters_before_and_after_open_witness :
    NeverOpened RTSPStreamer.new ∧
    exampleDemuxEnv.streams.length < 2 ^ 31 ∧
    RTSPStreamer.new.openUrl exampleDemuxEnv "rtsp://cam" = some (exampleStreamer, true) ∧
    (RTSPStreamer.new.getCodecParameters = some none ∧
     RTSPStreamer.new.getTimeBase = some { num := 1, den := 90000 } ∧
     ∃ (k : Nat) (st : AVStream), exampleStreamer.videoStreamIndex = (k : Int) ∧
       exampleDemuxEnv.streams[k]? = some st ∧ isVideo st = true ∧
       exampleStreamer.getCodecParameters = some (some st.codecpar) ∧
       exampleStreamer.getTimeBase = some st.time_base) :=
  ⟨NeverOpened.fresh, by decide, by decide,
   C9_getters_before_and_after_open RTSPStreamer.new RTSPStreamer.new exampleStreamer
     exampleDemuxEnv "rtsp://cam" NeverOpened.fresh (by decide) (by decide)⟩

/-- C10: once the transport is open and stream discovery has succeeded, for
every list of streams the source reports (fewer than 2^31 of them), `open`
returns `true` if and only if some stream is of video type; it then tracks the
smallest index of a video stream; and when no stream is of video type it
returns `false` with `videoStreamIndex = -1` (no stream tracked). -/
theorem C10_open_tracks_first_video_stream (env : DemuxEnv) (s : RTSPStreamer)
    (url : String) (ctx0 : InputContext) (hopen : 0 ≤ env.open_input)
    (hctx : env.open_input_ctx = some ctx0) (hinfo : 0 ≤ env.find_stream_info)
    (hlen : env.streams.length < 2 ^ 31) :
    ∃ s1, s.openUrl env url = some (s1, env.streams.any isVideo) ∧
      s1.fmtCtx = some { streams := env.streams } ∧
      (env.streams.any isVideo = true →
        ∃ (k : Nat) (st : AVStream), s1.videoStreamIndex = (k : Int) ∧ env.streams[k]? = some st ∧
          isVideo st = true ∧
          ∀ j, j < k → ∀ st1, env.streams[j]? = some st1 → isVideo st1 = false) ∧
      (env.streams.any isVideo = false → s1.videoStreamIndex = -1) := by
  rw [openUrl_after_discovery env s url ctx0 hopen hctx hinfo]
  rcases findVideoStream_spec env.streams 0 (by omega) with
    ⟨hany, hres⟩ | ⟨k, st, hk, hvid, hmin, hres⟩
  · refine ⟨{ fmtCtx := some { streams := env.streams },
              videoStreamIndex := findVideoStream env.streams 0,
              rtspUrl := url, shouldStop := s.shouldStop }, ?_, rfl, ?_, ?_⟩
    · simp [hres, hany]
    · intro h; rw [hany] at h; cases h
    · intro _; exact hres
  · have hany : env.streams.any isVideo = true := by
      rw [List.any_eq_true]
      exact ⟨st, List.getElem?_mem hk, hvid⟩
    have hne : findVideoStream env.streams 0 ≠ -1 := by
      rw [hres]; omega
    refine ⟨{ fmtCtx := some { streams := env.streams },
              videoStreamIndex := findVideoStream env.streams 0,
              rtspUrl := url, shouldStop := s.shouldStop }, ?_, rfl, ?_, ?_⟩
    · simp [hne, hany]
    · intro _
      exact ⟨k, st, by simp [hres], hk, hvid, hmin⟩
    · intro h; rw [hany] at h; cases h

/-- C10 at the example source (audio, video, video): `open` returns `true` and
tracks stream 1. -/
theorem C10_open_tracks_first_video_stream_witness :
    ∃ s1, RTSPStreamer.new.openUrl exampleDemuxEnv "rtsp://cam"
        = some (s1, exampleDemuxEnv.streams.any isVideo) ∧
      s1.fmtCtx = some { streams := exampleDemuxEnv.streams } ∧
      (exampleDemuxEnv.streams.any isVideo = true →
        ∃ (k : Nat) (st : AVStream), s1.videoStreamIndex = (k : Int) ∧ exampleDemuxEnv.streams[k]? = some st ∧
          isVideo st = true ∧
          ∀ j, j < k → ∀ st1, exampleDemuxEnv.streams[j]? = some st1 → isVideo st1 = false) ∧
      (exampleDemuxEnv.streams.any isVideo = false → s1.videoStreamIndex = -1) :=
  C10_open_tracks_first_video_stream exampleDemuxEnv RTSPStreamer.new "rtsp://cam"
    { streams := [] } (by decide) rfl (by decide) (by decide)

/-! ### The repair away from the value -1

Supporting facts: the behaviour of `writePacket` on an active session, and its
agreement with the last+1 reference when no rescaled timestamp is negative and
no sum leaves the `int64_t` range. -/

/-- An incremented value that stays within `int64_t` is not changed by the
wrap-around. -/
theorem wrapInt64_of_bounds (x : Int) (h1 : INT64_MIN ≤ x) (h2 : x ≤ INT64_MAX) :
    wrapInt64 x = x := by
  unfold wrapInt64
  unfold INT64_MIN at h1
  unfold INT64_MAX at h2
  norm_num at h1 h2 ⊢
  omega

/-- One `writePacket` on an active session: exactly one packet is submitted;
its presentation timestamp is the rescaled one, or `lastPts + 1` when `lastPts`
is not -1 and the rescaled one does not exceed it; `lastPts` becomes the
submitted timestamp and nothing else in the recorder changes. -/
theorem HLSRecorder.writePacket_active
    (rescale_ts : AVPacket → AVRational → AVRational → AVPacket)
    (r : HLSRecorder) (st : AVStream) (c : OutputContext) (p : AVPacket)
    (hi : r.initialized = true) (hs : r.outStream = some st) (hc : r.outFmtCtx = some c) :
    ∃ q : AVPacket,
      r.writePacket rescale_ts (some p)
        = some ({ r with lastPts := q.pts }, some q, [MuxerCall.interleaved_write_frame q]) ∧
      q.pts = (if r.lastPts ≠ -1 ∧ rescaledPts rescale_ts r st p ≤ r.lastPts
                then wrapInt64 (r.lastPts + 1) else rescaledPts rescale_ts r st p) := by
  unfold HLSRecorder.writePacket rescaledPts
  by_cases hrep : r.lastPts ≠ -1 ∧ (rescale_ts p r.inTimebase st.time_base).pts ≤ r.lastPts
  · exact ⟨_, by simp only [hi, hs, hc, Bool.not_true, Bool.false_eq_true, if_false]; rfl,
      by simp [hrep]⟩
  · exact ⟨_, by simp only [hi, hs, hc, Bool.not_true, Bool.false_eq_true, if_false]; rfl,
      by simp [hrep]⟩

/-- The last+1 reference yields a strictly increasing sequence whose members
all exceed the previous output. -/
theorem repairReference_increasing (rs : List Int) (last : Int) :
    List.Pairwise (fun a b => a < b) (repairReference (some last) rs) ∧
    ∀ o ∈ repairReference (some last) rs, last < o := by
  induction rs generalizing last with
  | nil => simp [repairReference]
  | cons x rest ih =>
    simp only [repairReference]
    obtain ⟨hp, hgt⟩ := ih (if x > last then x else last + 1)
    have hout : last < (if x > last then x else last + 1) := by
      split <;> omega
    refine ⟨List.pairwise_cons.mpr ⟨hgt, hp⟩, ?_⟩
    intro o ho
    rcases List.mem_cons.mp ho with h | h
    · rw [h]; exact hout
    · exact lt_trans hout (hgt o h)

/-- With no negative value, starting the reference with no previous output or
with the previous output -1 is the same. -/
theorem repairReference_none_eq (rs : List Int) (h : ∀ x ∈ rs, 0 ≤ x) :
    repairReference none rs = repairReference (some (-1)) rs := by
  cases rs with
  | nil => rfl
  | cons x rest =>
    have hx : 0 ≤ x := h x (List.mem_cons_self x rest)
    have hgt : x > -1 := by omega
    simp [repairReference, hgt]

/-- On an active session whose `lastPts` is at least -1, for packets whose
rescaled presentation timestamps are not negative and leave room in `int64_t`
for one increment per packet, the timestamps the code submits are those of the
last+1 reference started at `lastPts`. -/
theorem HLSRecorder.writePackets_nonneg
    (rescale_ts : AVPacket → AVRational → AVRational → AVPacket)
    (pkts : List AVPacket) (r : HLSRecorder) (st : AVStream) (c : OutputContext)
    (hi : r.initialized = true) (hs : r.outStream = some st) (hc : r.outFmtCtx = some c)
    (hL : -1 ≤ r.lastPts) (hLb : r.lastPts + pkts.length ≤ INT64_MAX)
    (hr : ∀ p ∈ pkts, 0 ≤ rescaledPts rescale_ts r st p ∧
      rescaledPts rescale_ts r st p + pkts.length ≤ INT64_MAX) :
    ∃ r1 calls, r.writePackets rescale_ts (pkts.map some) = some (r1, calls) ∧
      submittedPts calls
        = repairReference (some r.lastPts) (pkts.map (rescaledPts rescale_ts r st)) := by
  induction pkts generalizing r with
  | nil => exact ⟨r, [], rfl, rfl⟩
  | cons p rest ih =>
    obtain ⟨q, hq, hpts⟩ := HLSRecorder.writePacket_active rescale_ts r st c p hi hs hc
    obtain ⟨hp0, hpb⟩ := hr p (List.mem_cons_self p rest)
    simp only [List.length_cons, Nat.cast_add, Nat.cast_one] at hLb hpb
    have hmax : INT64_MAX = 2 ^ 63 - 1 := rfl
    have hmin : INT64_MIN = -(2 ^ 63) := rfl
    have hlen : (0 : Int) ≤ (rest.length : Int) := Int.ofNat_nonneg _
    -- the submitted timestamp is the reference output
    have hqref : q.pts = (if rescaledPts rescale_ts r st p > r.lastPts
        then rescaledPts rescale_ts r st p else r.lastPts + 1) := by
      rw [hpts]
      by_cases hrep : r.lastPts ≠ -1 ∧ rescaledPts rescale_ts r st p ≤ r.lastPts
      · have hw : wrapInt64 (r.lastPts + 1) = r.lastPts + 1 :=
          wrapInt64_of_bounds _ (by rw [hmin]; norm_num; omega) (by omega)
        have hng : ¬ rescaledPts rescale_ts r st p > r.lastPts := by omega
        rw [if_pos hrep, if_neg hng, hw]
      · have hg : rescaledPts rescale_ts r st p > r.lastPts := by
          by_contra hcon
          apply hrep
          constructor
          · omega
          · omega
        rw [if_neg hrep, if_pos hg]
    have hq1 : -1 ≤ q.pts := by rw [hqref]; split <;> omega
    have hq2 : q.pts + rest.length ≤ INT64_MAX := by rw [hqref]; split <;> omega
    have hr1 : ∀ p1 ∈ rest,
        0 ≤ rescaledPts rescale_ts { r with lastPts := q.pts } st p1 ∧
        rescaledPts rescale_ts { r with lastPts := q.pts } st p1 + rest.length ≤ INT64_MAX := by
      intro p1 hp1
      obtain ⟨h1, h2⟩ := hr p1 (List.mem_cons_of_mem p hp1)
      simp only [List.length_cons, Nat.cast_add, Nat.cast_one] at h2
      exact ⟨h1, by unfold rescaledPts at h2 ⊢; simp only at h2 ⊢; omega⟩
    obtain ⟨r1, calls, hrun, hsub⟩ :=
      ih { r with lastPts := q.pts } hi hs hc hq1 hq2 hr1
    refine ⟨r1, MuxerCall.interleaved_write_frame q :: calls, ?_, ?_⟩
    · simp only [List.map_cons, HLSRecorder.writePackets, hq, hrun, List.singleton_append]
    · simp only [submittedPts, List.map_cons, repairReference, hsub]
      rw [← hqref]
      rfl

/-- On a freshly initialised session (`lastPts = -1`), for packets whose
rescaled presentation timestamps are not negative and leave room in `int64_t`
for one increment per packet, the code submits the timestamps of the last+1
reference, and these strictly increase. -/
theorem HLSRecorder.writePackets_fresh_nonneg
    (rescale_ts : AVPacket → AVRational → AVRational → AVPacket)
    (pkts : List AVPacket) (r : HLSRecorder) (st : AVStream) (c : OutputContext)
    (hi : r.initialized = true) (hs : r.outStream = some st) (hc : r.outFmtCtx = some c)
    (hL : r.lastPts = -1)
    (hr : ∀ p ∈ pkts, 0 ≤ rescaledPts rescale_ts r st p ∧
      rescaledPts rescale_ts r st p + pkts.length ≤ INT64_MAX) :
    ∃ r1 calls, r.writePackets rescale_ts (pkts.map some) = some (r1, calls) ∧
      submittedPts calls = repairReference none (pkts.map (rescaledPts rescale_ts r st)) ∧
      List.Pairwise (fun a b => a < b) (submittedPts calls) := by
  have hmax : INT64_MAX = 2 ^ 63 - 1 := rfl
  have hLb : r.lastPts + pkts.length ≤ INT64_MAX := by
    cases pkts with
    | nil => rw [hL, hmax]; norm_num
    | cons p rest =>
      obtain ⟨h1, h2⟩ := hr p (List.mem_cons_self p rest)
      rw [hL]; omega
  obtain ⟨r1, calls, hrun, hsub⟩ :=
    HLSRecorder.writePackets_nonneg rescale_ts pkts r st c hi hs hc (by omega) hLb hr
  refine ⟨r1, calls, hrun, ?_, ?_⟩
  · rw [hsub, hL]
    symm
    apply repairReference_none_eq
    intro x hx
    obtain ⟨p, hp, rfl⟩ := List.mem_map.mp hx
    exact (hr p hp).1
  · rw [hsub]
    exact (repairReference_increasing _ _).1

/-- The bound of 30 is reached: thirty admitted and pushed packets with no pop
in between fill the detect queue to 30, and a further size check admits
nothing. -/
theorem DetectState.bound_is_reached :
    ((DetectState.initial.run
        ((List.replicate 30
          [DetectStep.sizeCheck (examplePacket 0), DetectStep.clonePush true]).flatten)
      ).detectQueue.size = 30) ∧
    ((DetectState.initial.run
        ((List.replicate 30
          [DetectStep.sizeCheck (examplePacket 0), DetectStep.clonePush true]).flatten
          ++ [DetectStep.sizeCheck (examplePacket 1), DetectStep.clonePush true])
      ).detectQueue.size = 30) := by
  constructor <;> rfl

/-! ### Inactive sessions, exact timestamps, snapshots and their names -/

/-- From a freshly constructed recorder, `init` leaves `initialized` equal to
its return value, and an active session has both its context and its stream. -/
theorem HLSRecorder.init_fresh (env : MuxerEnv) (tb : AVRational) (fname : String)
    (par : Option AVCodecParameters) (itb : AVRational) :
    (HLSRecorder.init env (HLSRecorder.new tb) fname par itb).1.initialized
      = (HLSRecorder.init env (HLSRecorder.new tb) fname par itb).2.1 ∧
    ((HLSRecorder.init env (HLSRecorder.new tb) fname par itb).2.1 = true →
      (HLSRecorder.init env (HLSRecorder.new tb) fname par itb).1.outFmtCtx.isSome = true ∧
      (HLSRecorder.init env (HLSRecorder.new tb) fname par itb).1.outStream.isSome = true ∧
      (HLSRecorder.init env (HLSRecorder.new tb) fname par itb).1.lastPts = -1) := by
  unfold HLSRecorder.init HLSRecorder.new
  cases par with
  | none => simp
  | some p =>
    cases hctx : env.alloc_output_context2 with
    | none => simp [hctx]
    | some ctx =>
      cases hst : env.new_stream with
      | none => simp [hctx, hst]
      | some st =>
        by_cases h1 : env.parameters_copy < 0
        · simp [hctx, hst, h1]
        · by_cases h2 : (!ctx.nofile && decide (env.avio_open < 0)) = true
          · simp only [hctx, hst, h1, if_false, h2, if_true]
            simp
          · by_cases h3 : env.write_header < 0
            · simp only [hctx, hst, h1, if_false, h2, h3, if_true]
              simp
            · simp only [hctx, hst, h1, if_false, h2, h3]
              simp

/-- After `finish`, a recorder that was freshly constructed and then passed
through `init` (successful or not) is inactive. -/
theorem HLSRecorder.finish_after_init_inactive (env : MuxerEnv) (tb : AVRational)
    (fname : String) (par : Option AVCodecParameters) (itb : AVRational) :
    (HLSRecorder.finish
      (HLSRecorder.init env (HLSRecorder.new tb) fname par itb).1).1.initialized = false := by
  obtain ⟨hini, hact⟩ := HLSRecorder.init_fresh env tb fname par itb
  generalize HLSRecorder.init env (HLSRecorder.new tb) fname par itb = res at hini hact
  obtain ⟨r, ok, calls⟩ := res
  simp only at hini hact
  cases ok with
  | false =>
    unfold HLSRecorder.finish
    simp [hini]
  | true =>
    obtain ⟨hctx, _, _⟩ := hact rfl
    obtain ⟨c, hc⟩ := Option.isSome_iff_exists.mp hctx
    unfold HLSRecorder.finish
    simp [hini, hc]

/-- C11: `writePacket` is a no-op when the session is inactive or the packet is
absent: the recorder (its `lastPts` included) and the packet come back
unchanged and no call is made on the muxer.  Inactive sessions include a
recorder that was never initialised, one whose `init` returned `false`, and one
that was finished. -/
theorem C11_writePacket_noop_when_inactive_or_no_packet
    (rescale_ts : AVPacket → AVRational → AVRational → AVPacket)
    (r : HLSRecorder) (packet : Option AVPacket)
    (env : MuxerEnv) (tb : AVRational) (fname : String)
    (par : Option AVCodecParameters) (itb : AVRational)
    (h : r.initialized = false ∨ packet = none) :
    r.writePacket rescale_ts packet = some (r, packet, []) ∧
    (HLSRecorder.new tb).writePacket rescale_ts packet
      = some (HLSRecorder.new tb, packet, []) ∧
    ((HLSRecorder.init env (HLSRecorder.new tb) fname par itb).2.1 = false →
      (HLSRecorder.init env (HLSRecorder.new tb) fname par itb).1.writePacket rescale_ts packet
        = some ((HLSRecorder.init env (HLSRecorder.new tb) fname par itb).1, packet, [])) ∧
    (HLSRecorder.finish (HLSRecorder.init env (HLSRecorder.new tb) fname par itb).1).1.writePacket
        rescale_ts packet
      = some ((HLSRecorder.finish
          (HLSRecorder.init env (HLSRecorder.new tb) fname par itb).1).1, packet, []) := by
  have key : ∀ r1 : HLSRecorder, r1.initialized = false →
      r1.writePacket rescale_ts packet = some (r1, packet, []) := by
    intro r1 h1
    unfold HLSRecorder.writePacket
    simp [h1]
  refine ⟨?_, key _ rfl, ?_, key _ (HLSRecorder.finish_after_init_inactive env tb fname par itb)⟩
  · rcases h with h | h
    · exact key r h
    · subst h
      unfold HLSRecorder.writePacket
      cases r.initialized <;> simp
  · intro hfail
    apply key
    rw [(HLSRecorder.init_fresh env tb fname par itb).1, hfail]

/-- C11 at concrete inputs: an absent packet on the active example recorder
leaves everything unchanged; `init` on a muxer whose header write fails returns
`false`; the example recorder is inactive once finished. -/
theorem C11_writePacket_noop_when_inactive_or_no_packet_witness :
    (exampleRecorder.initialized = false ∨ (none : Option AVPacket) = none) ∧
    exampleRecorder.writePacket rescaleEqualBases none = some (exampleRecorder, none, []) ∧
    (HLSRecorder.init failingHeaderEnv (HLSRecorder.new tb90k) "hls_output/stream.m3u8"
      (some exampleCodecParameters) tb90k).2.1 = false ∧
    (HLSRecorder.finish exampleRecorder).1.initialized = false :=
  ⟨Or.inr rfl,
   (C11_writePacket_noop_when_inactive_or_no_packet rescaleEqualBases exampleRecorder none
      failingHeaderEnv tb90k "hls_output/stream.m3u8" (some exampleCodecParameters) tb90k
      (Or.inr rfl)).1,
   by decide, by decide⟩

/-- The exact effect of one `writePacket` on an active session, by the two
branches of the timestamp guard. -/
theorem HLSRecorder.writePacket_exact
    (rescale_ts : AVPacket → AVRational → AVRational → AVPacket)
    (r : HLSRecorder) (st : AVStream) (c : OutputContext) (p : AVPacket)
    (hi : r.initialized = true) (hs : r.outStream = some st) (hc : r.outFmtCtx = some c) :
    r.writePacket rescale_ts (some p)
      = if r.lastPts ≠ -1 ∧ rescaledPts rescale_ts r st p ≤ r.lastPts then
          some ({ r with lastPts := wrapInt64 (r.lastPts + 1) },
                some { rescale_ts p r.inTimebase st.time_base with
                        stream_index := st.index,
                        pts := wrapInt64 (r.lastPts + 1),
                        dts := wrapInt64 (r.lastPts + 1) },
                [MuxerCall.interleaved_write_frame
                  { rescale_ts p r.inTimebase st.time_base with
                      stream_index := st.index,
                      pts := wrapInt64 (r.lastPts + 1),
                      dts := wrapInt64 (r.lastPts + 1) }])
        else
          some ({ r with lastPts := rescaledPts rescale_ts r st p },
                some { rescale_ts p r.inTimebase st.time_base with stream_index := st.index },
                [MuxerCall.interleaved_write_frame
                  { rescale_ts p r.inTimebase st.time_base with
                      stream_index := st.index }]) := by
  unfold HLSRecorder.writePacket rescaledPts
  by_cases hrep : r.lastPts ≠ -1 ∧ (rescale_ts p r.inTimebase st.time_base).pts ≤ r.lastPts
  · simp only [hi, hs, hc, Bool.not_true, Bool.false_eq_true, if_false]
    rw [if_pos hrep, if_pos hrep]
  · simp only [hi, hs, hc, Bool.not_true, Bool.false_eq_true, if_false]
    rw [if_neg hrep, if_neg hrep]

/-- C14, evaluated on the code: on the example recorder (equal time bases), after
a packet with presentation timestamp -1 has been written the recorder's
`lastPts` is -1; a further packet with timestamp -5 (not above the last emitted
one) is then submitted with presentation and decode timestamps -5, not with
the repaired value 0 = -1 + 1.  The guard `lastPts != -1` takes the emitted -1
for the initial value of `lastPts`. -/
theorem C14_no_repair_after_emitting_minus_one :
    (HLSRecorder.writePackets rescaleEqualBases exampleRecorder
        [some (examplePacket (-1))]).map (fun x => x.1.lastPts) = some (-1) ∧
    exampleRunPackets [-1, -5] = some [examplePacket (-1), examplePacket (-5)] ∧
    (examplePacket (-5)).pts = -5 ∧ (examplePacket (-5)).dts = -5 ∧
    exampleRunPackets [5, 3] = some [examplePacket 5, { examplePacket 3 with pts := 6, dts := 6 }] := by
  refine ⟨by decide, by decide, rfl, rfl, by decide⟩

/-- What C14 says holds on every active session whose `lastPts` is not the
value -1 and is below `INT64_MAX`: a rescaled timestamp not above `lastPts` is
replaced by `lastPts + 1` in both timestamp fields, a larger one is kept with
its decode timestamp, `lastPts` becomes the emitted presentation timestamp and
the stream index is that of the output stream. -/
theorem HLSRecorder.writePacket_timestamps
    (rescale_ts : AVPacket → AVRational → AVRational → AVPacket)
    (r : HLSRecorder) (st : AVStream) (c : OutputContext) (p : AVPacket)
    (hi : r.initialized = true) (hs : r.outStream = some st) (hc : r.outFmtCtx = some c)
    (hne : r.lastPts ≠ -1) (hL1 : INT64_MIN ≤ r.lastPts) (hL2 : r.lastPts < INT64_MAX) :
    ∃ r1 q, r.writePacket rescale_ts (some p)
        = some (r1, some q, [MuxerCall.interleaved_write_frame q]) ∧
      r1.lastPts = q.pts ∧ q.stream_index = st.index ∧
      (rescaledPts rescale_ts r st p ≤ r.lastPts →
        q.pts = r.lastPts + 1 ∧ q.dts = q.pts) ∧
      (r.lastPts < rescaledPts rescale_ts r st p →
        q.pts = (rescale_ts p r.inTimebase st.time_base).pts ∧
        q.dts = (rescale_ts p r.inTimebase st.time_base).dts) := by
  have hw : wrapInt64 (r.lastPts + 1) = r.lastPts + 1 := by
    apply wrapInt64_of_bounds
    · unfold INT64_MIN at hL1 ⊢; omega
    · unfold INT64_MAX at hL2 ⊢; omega
  rw [HLSRecorder.writePacket_exact rescale_ts r st c p hi hs hc]
  by_cases hrep : r.lastPts ≠ -1 ∧ rescaledPts rescale_ts r st p ≤ r.lastPts
  · rw [if_pos hrep]
    refine ⟨_, _, rfl, rfl, rfl, ?_, ?_⟩
    · intro _; exact ⟨hw, rfl⟩
    · intro hgt; exact absurd hrep.2 (by omega)
  · rw [if_neg hrep]
    refine ⟨_, _, rfl, rfl, rfl, ?_, ?_⟩
    · intro hle; exact absurd ⟨hne, hle⟩ hrep
    · intro _; exact ⟨rfl, rfl⟩

/-- On an active session every sequence of present packets is written: no
call is left without a result. -/
theorem HLSRecorder.writePackets_total
    (rescale_ts : AVPacket → AVRational → AVRational → AVPacket)
    (pkts : List AVPacket) (r : HLSRecorder) (st : AVStream) (c : OutputContext)
    (hi : r.initialized = true) (hs : r.outStream = some st) (hc : r.outFmtCtx = some c) :
    ∃ r1 calls, r.writePackets rescale_ts (pkts.map some) = some (r1, calls) ∧
      r1.initialized = true ∧ r1.outStream = some st ∧ r1.outFmtCtx = some c ∧
      r1.inTimebase = r.inTimebase := by
  induction pkts generalizing r with
  | nil => exact ⟨r, [], rfl, hi, hs, hc, rfl⟩
  | cons p rest ih =>
    obtain ⟨q, hq, _⟩ := HLSRecorder.writePacket_active rescale_ts r st c p hi hs hc
    obtain ⟨r1, calls, hrun, h1, h2, h3, h4⟩ := ih { r with lastPts := q.pts } hi hs hc
    exact ⟨r1, MuxerCall.interleaved_write_frame q :: calls,
      by simp only [List.map_cons, HLSRecorder.writePackets, hq, hrun, List.singleton_append],
      h1, h2, h3, h4⟩

/-- Strictly increasing rescaled timestamps are never repaired: on an active
session whose `lastPts` is -1 or below all of them, each packet is submitted
as rescaled, with only its stream index set. -/
theorem HLSRecorder.writePackets_increasing
    (rescale_ts : AVPacket → AVRational → AVRational → AVPacket)
    (pkts : List AVPacket) (r : HLSRecorder) (st : AVStream) (c : OutputContext)
    (hi : r.initialized = true) (hs : r.outStream = some st) (hc : r.outFmtCtx = some c)
    (hL : r.lastPts = -1 ∨ ∀ p ∈ pkts, r.lastPts < rescaledPts rescale_ts r st p)
    (hinc : List.Pairwise (fun a b => a < b) (pkts.map (rescaledPts rescale_ts r st))) :
    ∃ r1 calls, r.writePackets rescale_ts (pkts.map some) = some (r1, calls) ∧
      submittedPackets calls
        = pkts.map (fun p =>
            { rescale_ts p r.inTimebase st.time_base with stream_index := st.index }) := by
  induction pkts generalizing r with
  | nil => exact ⟨r, [], rfl, rfl⟩
  | cons p rest ih =>
    have hnorep : ¬ (r.lastPts ≠ -1 ∧ rescaledPts rescale_ts r st p ≤ r.lastPts) := by
      rintro ⟨hne, hle⟩
      rcases hL with h | h
      · exact hne h
      · have := h p (List.mem_cons_self p rest)
        omega
    have hstep := HLSRecorder.writePacket_exact rescale_ts r st c p hi hs hc
    rw [if_neg hnorep] at hstep
    simp only [List.map_cons, List.pairwise_cons] at hinc
    obtain ⟨hhead, htail⟩ := hinc
    have hL1 : ({ r with lastPts := rescaledPts rescale_ts r st p } : HLSRecorder).lastPts = -1 ∨
        ∀ p1 ∈ rest, ({ r with lastPts := rescaledPts rescale_ts r st p } : HLSRecorder).lastPts
          < rescaledPts rescale_ts { r with lastPts := rescaledPts rescale_ts r st p } st p1 := by
      right
      intro p1 hp1
      exact hhead _ (List.mem_map_of_mem _ hp1)
    obtain ⟨r1, calls, hrun, hsub⟩ :=
      ih { r with lastPts := rescaledPts rescale_ts r st p } hi hs hc hL1 htail
    refine ⟨r1, MuxerCall.interleaved_write_frame
      { rescale_ts p r.inTimebase st.time_base with stream_index := st.index } :: calls,
      ?_, ?_⟩
    · simp only [List.map_cons, HLSRecorder.writePackets, hstep, hrun, List.singleton_append]
    · simp only [submittedPackets, List.map_cons, hsub]

/-- The repair never moves a timestamp backwards as long as `lastPts + 1` does
not leave `int64_t`: on an active session with `lastPts` below `INT64_MAX`,
if no submitted presentation timestamp equals `INT64_MAX`, each submitted
timestamp is at least the rescaled input timestamp of its packet. -/
theorem HLSRecorder.writePackets_not_backwards
    (rescale_ts : AVPacket → AVRational → AVRational → AVPacket)
    (pkts : List AVPacket) (r : HLSRecorder) (st : AVStream) (c : OutputContext)
    (hi : r.initialized = true) (hs : r.outStream = some st) (hc : r.outFmtCtx = some c)
    (hL1 : INT64_MIN ≤ r.lastPts) (hL2 : r.lastPts < INT64_MAX)
    (hr : ∀ p ∈ pkts, INT64_MIN ≤ rescaledPts rescale_ts r st p)
    (r1 : HLSRecorder) (calls : List MuxerCall)
    (hrun : r.writePackets rescale_ts (pkts.map some) = some (r1, calls))
    (hmax : ∀ e ∈ submittedPts calls, e < INT64_MAX) :
    List.Forall₂ (fun x e => x ≤ e) (pkts.map (rescaledPts rescale_ts r st))
      (submittedPts calls) := by
  induction pkts generalizing r r1 calls with
  | nil =>
    simp only [List.map_nil, HLSRecorder.writePackets, Option.some.injEq, Prod.mk.injEq] at hrun
    rw [← hrun.2]
    exact List.Forall₂.nil
  | cons p rest ih =>
    obtain ⟨q, hq, hpts⟩ := HLSRecorder.writePacket_active rescale_ts r st c p hi hs hc
    obtain ⟨r2, calls2, hrun2, _⟩ :=
      HLSRecorder.writePackets_total rescale_ts rest { r with lastPts := q.pts } st c hi hs hc
    simp only [List.map_cons, HLSRecorder.writePackets, hq, hrun2, List.singleton_append,
      Option.some.injEq, Prod.mk.injEq] at hrun
    obtain ⟨hr12, hcalls⟩ := hrun
    subst hr12 hcalls
    simp only [submittedPts, List.mem_cons, forall_eq_or_imp] at hmax
    obtain ⟨hqmax, hmax2⟩ := hmax
    have hx := hr p (List.mem_cons_self p rest)
    have hmin : INT64_MIN = -(2 ^ 63) := rfl
    have hmx : INT64_MAX = 2 ^ 63 - 1 := rfl
    have hw : wrapInt64 (r.lastPts + 1) = r.lastPts + 1 :=
      wrapInt64_of_bounds _ (by omega) (by omega)
    have hge : rescaledPts rescale_ts r st p ≤ q.pts ∧ INT64_MIN ≤ q.pts := by
      rw [hpts]
      by_cases hrep : r.lastPts ≠ -1 ∧ rescaledPts rescale_ts r st p ≤ r.lastPts
      · rw [if_pos hrep, hw]; constructor <;> omega
      · rw [if_neg hrep]; exact ⟨le_refl _, hx⟩
    have hr2 : ∀ p1 ∈ rest,
        INT64_MIN ≤ rescaledPts rescale_ts { r with lastPts := q.pts } st p1 := by
      intro p1 hp1
      exact hr p1 (List.mem_cons_of_mem p hp1)
    have hrec := ih { r with lastPts := q.pts } hi hs hc hge.2 hqmax hr2 r2 calls2 hrun2 hmax2
    simp only [List.map_cons, submittedPts]
    exact List.Forall₂.cons hge.1 hrec

/-- C15 as stated fails on the code at the end of the `int64_t` range: after a
packet with presentation timestamp `INT64_MAX`, a packet with timestamp 0 is
repaired to `lastPts + 1`, which wraps to `INT64_MIN`; the emitted timestamp is
below the rescaled input 0. -/
theorem C15_repair_wraps_at_int64_max :
    exampleRun [9223372036854775807, 0] = some [9223372036854775807, -9223372036854775808] ∧
    INT64_MAX = 9223372036854775807 ∧
    ¬ ((0 : Int) ≤ -9223372036854775808) := by
  refine ⟨by decide, by decide, by decide⟩

/-- C15, amended: on a freshly initialised session every sequence of packets is
written; if the rescaled presentation timestamps strictly increase the repair is
never applied and every packet is submitted with its rescaled presentation and
decode timestamps; and for every sequence of packets (rescaled timestamps in
`int64_t`) during which no submitted presentation timestamp equals `INT64_MAX`,
so that `lastPts + 1` never overflows, each submitted presentation timestamp is
at least the rescaled input timestamp. -/
theorem C15_fidelity_for_increasing_and_never_backwards
    (rescale_ts : AVPacket → AVRational → AVRational → AVPacket)
    (pkts : List AVPacket) (r : HLSRecorder) (st : AVStream) (c : OutputContext)
    (hi : r.initialized = true) (hs : r.outStream = some st) (hc : r.outFmtCtx = some c)
    (hL : r.lastPts = -1) :
    ∃ r1 calls, r.writePackets rescale_ts (pkts.map some) = some (r1, calls) ∧
      (List.Pairwise (fun a b => a < b) (pkts.map (rescaledPts rescale_ts r st)) →
        submittedPackets calls
          = pkts.map (fun p =>
              { rescale_ts p r.inTimebase st.time_base with stream_index := st.index })) ∧
      ((∀ p ∈ pkts, INT64_MIN ≤ rescaledPts rescale_ts r st p) →
        (∀ e ∈ submittedPts calls, e < INT64_MAX) →
        List.Forall₂ (fun x e => x ≤ e) (pkts.map (rescaledPts rescale_ts r st))
          (submittedPts calls)) := by
  obtain ⟨r1, calls, hrun, _⟩ :=
    HLSRecorder.writePackets_total rescale_ts pkts r st c hi hs hc
  refine ⟨r1, calls, hrun, ?_, ?_⟩
  · intro hinc
    obtain ⟨r2, calls2, hrun2, hsub⟩ :=
      HLSRecorder.writePackets_increasing rescale_ts pkts r st c hi hs hc (Or.inl hL) hinc
    rw [hrun] at hrun2
    simp only [Option.some.injEq, Prod.mk.injEq] at hrun2
    rw [hrun2.2]
    exact hsub
  · intro hr hmax
    have h1 : INT64_MIN ≤ r.lastPts := by rw [hL]; decide
    have h2 : r.lastPts < INT64_MAX := by rw [hL]; decide
    exact HLSRecorder.writePackets_not_backwards rescale_ts pkts r st c hi hs hc h1 h2 hr
      r1 calls hrun hmax

/-- C15 amended, at the example recorder with packets at 5, 5, 3, 9. -/
theorem C15_fidelity_for_increasing_and_never_backwards_witness :
    exampleRecorder.initialized = true ∧ exampleRecorder.outStream = some exampleOutStream ∧
    exampleRecorder.outFmtCtx = some exampleOutputContext ∧ exampleRecorder.lastPts = -1 ∧
    exampleRun [5, 5, 3, 9] = some [5, 6, 7, 9] ∧
    exampleRunPackets [1, 2, 4] = some [examplePacket 1, examplePacket 2, examplePacket 4] ∧
    ∃ r1 calls, exampleRecorder.writePackets rescaleEqualBases
        ([examplePacket 5, examplePacket 5, examplePacket 3, examplePacket 9].map some)
        = some (r1, calls) ∧
      (List.Pairwise (fun a b => a < b)
          ([examplePacket 5, examplePacket 5, examplePacket 3, examplePacket 9].map
            (rescaledPts rescaleEqualBases exampleRecorder exampleOutStream)) →
        submittedPackets calls
          = [examplePacket 5, examplePacket 5, examplePacket 3, examplePacket 9].map (fun p =>
              { rescaleEqualBases p exampleRecorder.inTimebase exampleOutStream.time_base with
                  stream_index := exampleOutStream.index })) ∧
      ((∀ p ∈ [examplePacket 5, examplePacket 5, examplePacket 3, examplePacket 9],
          INT64_MIN ≤ rescaledPts rescaleEqualBases exampleRecorder exampleOutStream p) →
        (∀ e ∈ submittedPts calls, e < INT64_MAX) →
        List.Forall₂ (fun x e => x ≤ e)
          ([examplePacket 5, examplePacket 5, examplePacket 3, examplePacket 9].map
            (rescaledPts rescaleEqualBases exampleRecorder exampleOutStream))
          (submittedPts calls)) :=
  ⟨by decide, by decide, by decide, by decide, by decide, by decide,
   C15_fidelity_for_increasing_and_never_backwards rescaleEqualBases
     [examplePacket 5, examplePacket 5, examplePacket 3, examplePacket 9]
     exampleRecorder exampleOutStream exampleOutputContext
     (by decide) (by decide) (by decide) (by decide)⟩

/-- The detection loop calls the sink once per detection, in list order, with
that detection's class name and confidence and the given timestamp and path,
whatever the results of the calls; it writes no image. -/
theorem logDetections_calls (db : DatabaseHandler) (statusOf : Nat → ExecStatusType)
    (timestamp filename : String) (detections : List Detection) (i : Nat) :
    sinkCalls (logDetections db statusOf timestamp filename detections i)
      = detections.map (fun det =>
          { deviceName := "cam1", className := det.className, confidence := det.confidence,
            timestamp := timestamp, framePath := filename }) ∧
    imagesWritten (logDetections db statusOf timestamp filename detections i) = [] ∧
    sinkResults (logDetections db statusOf timestamp filename detections i)
      = (detections.enumFrom i).map (fun jd =>
          db.logDetection (statusOf jd.1) "cam1" jd.2.className jd.2.confidence
            timestamp filename) := by
  induction detections generalizing i with
  | nil => exact ⟨rfl, rfl, rfl⟩
  | cons det rest ih =>
    obtain ⟨h1, h2, h3⟩ := ih (i + 1)
    refine ⟨?_, ?_, ?_⟩
    · simp only [logDetections, sinkCalls, List.map_cons, h1]
    · simp only [logDetections, imagesWritten, h2]
    · simp only [logDetections, sinkResults, List.enumFrom_cons, List.map_cons, h3]

/-- C12: for every decoded frame and every detection list returned for it, with
any sink (connected or not, each insert succeeding or failing): an empty list
leaves no action at all (no image, no sink call); a list of k >= 1 detections
writes exactly one image and calls the sink exactly k times, once per detection
in list order, each call with device "cam1", that detection's class name and
confidence, the one timestamp of the frame and the one generated path of the
image; the calls are made whatever the earlier calls returned. -/
theorem C12_one_image_and_one_sink_call_per_detection (db : DatabaseHandler)
    (statusOf : Nat → ExecStatusType) (detections : List Detection) (clock : ClockReading) :
    detectorWorkerFrame db statusOf [] clock = [] ∧
    imagesWritten (detectorWorkerFrame db statusOf detections clock)
      = (if detections.isEmpty then [] else [frameFilename (timestampOf clock)]) ∧
    sinkCalls (detectorWorkerFrame db statusOf detections clock)
      = detections.map (fun det =>
          { deviceName := "cam1", className := det.className, confidence := det.confidence,
            timestamp := timestampOf clock,
            framePath := frameFilename (timestampOf clock) }) ∧
    (sinkCalls (detectorWorkerFrame db statusOf detections clock)).length = detections.length ∧
    sinkResults (detectorWorkerFrame db statusOf detections clock)
      = (detections.enumFrom 0).map (fun jd =>
          db.logDetection (statusOf jd.1) "cam1" jd.2.className jd.2.confidence
            (timestampOf clock) (frameFilename (timestampOf clock))) := by
  obtain ⟨h1, h2, h3⟩ := logDetections_calls db statusOf (timestampOf clock)
    (frameFilename (timestampOf clock)) detections 0
  cases detections with
  | nil => exact ⟨rfl, rfl, rfl, rfl, rfl⟩
  | cons det rest =>
    have hframe : detectorWorkerFrame db statusOf (det :: rest) clock
        = WorkerAction.imwrite (frameFilename (timestampOf clock)) ::
            logDetections db statusOf (timestampOf clock) (frameFilename (timestampOf clock))
              (det :: rest) 0 := by
      simp [detectorWorkerFrame]
    generalize logDetections db statusOf (timestampOf clock)
      (frameFilename (timestampOf clock)) (det :: rest) 0 = acts at h1 h2 h3 hframe
    rw [hframe]
    refine ⟨rfl, ?_, ?_, ?_, ?_⟩
    · simp only [imagesWritten, h2, List.isEmpty_cons, Bool.false_eq_true, if_false]
    · simp only [sinkCalls, h1]
    · simp only [sinkCalls, h1, List.length_map]
    · simp only [sinkResults, h3]

/-- The end-to-end case of the specification, with a sink that is not
connected: one detection ("person", 0.9) gives one image and one sink call with
that class, confidence and the generated path, and the failing call is
recorded as failed; with two detections the second call follows the failed
first one. -/
theorem detectorWorkerFrame_person_example :
    detectorWorkerFrame { conn := none } (fun _ => ExecStatusType.PGRES_FATAL_ERROR)
        [personDetection] (exampleClock 5)
      = [WorkerAction.imwrite "detected_frames/frame_20240517_123045_5.jpg",
         WorkerAction.logDetection "cam1" "person" { bits := 0x3F666666 }
           "20240517_123045_5" "detected_frames/frame_20240517_123045_5.jpg" false] ∧
    (sinkCalls (detectorWorkerFrame { conn := none }
        (fun _ => ExecStatusType.PGRES_FATAL_ERROR)
        [personDetection, personDetection] (exampleClock 5))).length = 2 ∧
    sinkResults (detectorWorkerFrame { conn := some 1 }
        (fun i => if i = 0 then ExecStatusType.PGRES_FATAL_ERROR
                  else ExecStatusType.PGRES_COMMAND_OK)
        [personDetection, personDetection] (exampleClock 5)) = [false, true] := by
  refine ⟨by decide, by decide, by decide⟩

/-- C13, evaluated on the code: two frames captured in the same second
(2024-05-17 12:30:45, same local time offset), the first at millisecond 5 and
the second at millisecond 38, get the names `..._123045_5.jpg` and
`..._123045_38.jpg`; the later name is lexicographically smaller than the
earlier one, because the millisecond count is printed without zero padding.
The same happens at 9 and 10 milliseconds and at 99 and 100. -/
theorem C13_unpadded_milliseconds_break_name_order :
    (exampleClock 5).earlier (exampleClock 38) ∧
    frameFilename (timestampOf (exampleClock 5))
      = "detected_frames/frame_20240517_123045_5.jpg" ∧
    frameFilename (timestampOf (exampleClock 38))
      = "detected_frames/frame_20240517_123045_38.jpg" ∧
    frameFilename (timestampOf (exampleClock 38)) < frameFilename (timestampOf (exampleClock 5)) ∧
    ¬ frameFilename (timestampOf (exampleClock 5)) < frameFilename (timestampOf (exampleClock 38)) ∧
    (exampleClock 9).earlier (exampleClock 10) ∧
    frameFilename (timestampOf (exampleClock 10)) < frameFilename (timestampOf (exampleClock 9)) ∧
    (exampleClock 99).earlier (exampleClock 100) ∧
    frameFilename (timestampOf (exampleClock 100))
      < frameFilename (timestampOf (exampleClock 99)) := by
  refine ⟨by decide, by decide, by decide, String.lt_iff_toList_lt.mpr (by decide),
    fun h => absurd (String.lt_iff_toList_lt.mp h) (by decide), by decide,
    String.lt_iff_toList_lt.mpr (by decide), by decide,
    String.lt_iff_toList_lt.mpr (by decide)⟩

/-! ### Lexicographic order of the generated names -/

/-- A fixed-width rendering has the stated width. -/
theorem digitsW_length (w n : Nat) : (digitsW w n).length = w := by
  induction w generalizing n with
  | zero => rfl
  | succ w ih => simp [digitsW, ih]

/-- Digit characters are ordered like the digits. -/
theorem digitChar_lt_digitChar :
    ∀ a, a < 10 → ∀ b, b < 10 → a < b → Nat.digitChar a < Nat.digitChar b := by
  decide

/-- A lexicographic inequality between lists of equal length survives any
continuation of the two lists. -/
theorem lex_append_of_length_eq {a b : List Char}
    (h : List.Lex (fun x y : Char => x < y) a b) (hlen : a.length = b.length)
    (s t : List Char) : List.Lex (fun x y : Char => x < y) (a ++ s) (b ++ t) := by
  induction h with
  | nil => simp at hlen
  | cons _ ih =>
    simp only [List.length_cons, Nat.add_right_cancel_iff] at hlen
    exact List.Lex.cons (ih hlen)
  | rel hr => exact List.Lex.rel hr

/-- Fixed-width renderings are ordered like the numbers. -/
theorem digitsW_lex (w n m : Nat) (hnm : n < m) (hm : m < 10 ^ w) :
    List.Lex (fun x y : Char => x < y) (digitsW w n) (digitsW w m) := by
  induction w generalizing n m with
  | zero => simp at hm; omega
  | succ w ih =>
    have hm10 : m / 10 < 10 ^ w := by
      rw [pow_succ] at hm
      exact Nat.div_lt_of_lt_mul (by rw [Nat.mul_comm]; exact hm)
    simp only [digitsW]
    rcases Nat.lt_or_ge (n / 10) (m / 10) with hlt | hge
    · exact lex_append_of_length_eq (ih (n / 10) (m / 10) hlt hm10)
        (by rw [digitsW_length, digitsW_length]) _ _
    · have heq : n / 10 = m / 10 := by omega
      rw [heq]
      apply List.Lex.append_left
      exact List.Lex.rel (digitChar_lt_digitChar _ (Nat.mod_lt _ (by norm_num)) _
        (Nat.mod_lt _ (by norm_num)) (by omega))

/-- The decimal digits the library produces for a number of exactly `k + 1`
digits are its fixed-width rendering. -/
theorem toDigitsCore_eq_digitsW (k : Nat) :
    ∀ (n fuel : Nat) (ds : List Char), n < 10 ^ (k + 1) → (k = 0 ∨ 10 ^ k ≤ n) →
      k + 1 ≤ fuel → Nat.toDigitsCore 10 fuel n ds = digitsW (k + 1) n ++ ds := by
  induction k with
  | zero =>
    intro n fuel ds hn _ hf
    obtain ⟨f, rfl⟩ : ∃ f, fuel = f + 1 := ⟨fuel - 1, by omega⟩
    have h0 : n / 10 = 0 := by
      simp only [zero_add, pow_one] at hn
      omega
    simp [Nat.toDigitsCore, digitsW, h0]
  | succ k ih =>
    intro n fuel ds hn hlow hf
    obtain ⟨f, rfl⟩ : ∃ f, fuel = f + 1 := ⟨fuel - 1, by omega⟩
    have hlow1 : 10 ^ (k + 1) ≤ n := by
      rcases hlow with h | h
      · omega
      · exact h
    have hpos : 0 < 10 ^ k := Nat.pow_pos (by norm_num)
    have hne : n / 10 ≠ 0 := by
      rw [pow_succ] at hlow1
      omega
    have hn10 : n / 10 < 10 ^ (k + 1) := by
      rw [pow_succ] at hn
      exact Nat.div_lt_of_lt_mul (by rw [Nat.mul_comm]; exact hn)
    have hlow10 : k = 0 ∨ 10 ^ k ≤ n / 10 := by
      right
      rw [pow_succ] at hlow1
      omega
    have hrec := ih (n / 10) f (Nat.digitChar (n % 10) :: ds) hn10 hlow10 (by omega)
    rw [Nat.toDigitsCore]
    simp only [hne, if_false]
    rw [hrec]
    conv_rhs => rw [digitsW]
    simp

/-- The characters of `toString n` for a number of exactly `k + 1` digits. -/
theorem toString_toList_eq_digitsW (k n : Nat) (hn : n < 10 ^ (k + 1))
    (hlow : k = 0 ∨ 10 ^ k ≤ n) : (toString n).toList = digitsW (k + 1) n := by
  have hk : k + 1 ≤ n + 1 := by
    rcases hlow with h | h
    · omega
    · have : k < 10 ^ k := Nat.lt_pow_self (by norm_num) k
      omega
  have h := toDigitsCore_eq_digitsW k n (n + 1) [] hn hlow hk
  show (Nat.repr n).toList = _
  simp only [Nat.repr, Nat.toDigits, h, List.append_nil]
  rfl

/-- The characters of a two-digit field. -/
theorem twoDigits_toList (n : Nat) (hn : n < 100) : (twoDigits n).toList = digitsW 2 n := by
  unfold twoDigits
  by_cases h : n < 10
  · have h1 := toString_toList_eq_digitsW 0 n (by simpa using h) (Or.inl rfl)
    have h0 : n / 10 = 0 := by omega
    rw [if_pos h]
    show ("0" ++ toString n).data = _
    rw [String.data_append]
    show ['0'] ++ (toString n).toList = _
    rw [h1]
    simp [digitsW, h0]
    rfl
  · rw [if_neg h]
    exact toString_toList_eq_digitsW 1 n (by simpa using hn) (Or.inr (by simpa using Nat.le_of_not_lt h))

/-- The characters of a generated file name, field by field, for a valid clock
reading. -/
theorem frameFilename_toList (c : ClockReading) (hc : c.valid) :
    (frameFilename (timestampOf c)).toList
      = "detected_frames/frame_".toList ++
        (digitsW 4 (c.localtime.tm_year + 1900) ++
        (digitsW 2 (c.localtime.tm_mon + 1) ++
        (digitsW 2 c.localtime.tm_mday ++
        ('_' :: (digitsW 2 c.localtime.tm_hour ++
        (digitsW 2 c.localtime.tm_min ++
        (digitsW 2 c.localtime.tm_sec ++
        ('_' :: ((toString c.ms).toList ++ ".jpg".toList))))))))) := by
  obtain ⟨hy, hmo, hd, hh, hmi, hs, _⟩ := hc
  have e1 : (toString (c.localtime.tm_year + 1900)).data
      = digitsW 4 (c.localtime.tm_year + 1900) :=
    toString_toList_eq_digitsW 3 _ (by norm_num; omega) (Or.inr (by norm_num))
  have e2 : (twoDigits (c.localtime.tm_mon + 1)).data = digitsW 2 (c.localtime.tm_mon + 1) :=
    twoDigits_toList _ (by omega)
  have e3 : (twoDigits c.localtime.tm_mday).data = digitsW 2 c.localtime.tm_mday :=
    twoDigits_toList _ (by omega)
  have e4 : (twoDigits c.localtime.tm_hour).data = digitsW 2 c.localtime.tm_hour :=
    twoDigits_toList _ (by omega)
  have e5 : (twoDigits c.localtime.tm_min).data = digitsW 2 c.localtime.tm_min :=
    twoDigits_toList _ (by omega)
  have e6 : (twoDigits c.localtime.tm_sec).data = digitsW 2 c.localtime.tm_sec :=
    twoDigits_toList _ (by omega)
  have eu : ("_" : String).data = ['_'] := rfl
  simp only [frameFilename, timestampOf, put_time, String.toList, String.data_append,
    e1, e2, e3, e4, e5, e6, eu, List.append_assoc, List.singleton_append, List.cons_append, List.nil_append]

/-- Comparison of two lists that start with a fixed-width field: the smaller
field decides; with equal fields the rest decides. -/
theorem lex_field (w n m : Nat) (r s : List Char) (hm : m < 10 ^ w)
    (h : n < m ∨ (n = m ∧ List.Lex (fun x y : Char => x < y) r s)) :
    List.Lex (fun x y : Char => x < y) (digitsW w n ++ r) (digitsW w m ++ s) := by
  rcases h with h | ⟨h, hrs⟩
  · exact lex_append_of_length_eq (digitsW_lex w n m h hm)
      (by rw [digitsW_length, digitsW_length]) r s
  · rw [h]
    exact List.Lex.append_left _ hrs _

/-- A millisecond count below 1000 is printed with one, two or three digits. -/
theorem toString_ms_width (n : Nat) (hn : n ≤ 999) :
    ∃ k, (toString n).toList = digitsW (k + 1) n ∧ n < 10 ^ (k + 1) := by
  by_cases h1 : n < 10
  · exact ⟨0, toString_toList_eq_digitsW 0 n (by simpa using h1) (Or.inl rfl), by simpa using h1⟩
  · by_cases h2 : n < 100
    · exact ⟨1, toString_toList_eq_digitsW 1 n (by simpa using h2)
        (Or.inr (by simpa using Nat.le_of_not_lt h1)), by simpa using h2⟩
    · exact ⟨2, toString_toList_eq_digitsW 2 n (by norm_num; omega)
        (Or.inr (by norm_num; omega)), by norm_num; omega⟩

/-- Millisecond counts printed with equally many digits are ordered like the
counts, whatever follows them. -/
theorem toString_ms_lex (n m : Nat) (hm : m ≤ 999) (hnm : n < m)
    (hlen : (toString n).length = (toString m).length) (r s : List Char) :
    List.Lex (fun x y : Char => x < y) ((toString n).toList ++ r) ((toString m).toList ++ s) := by
  obtain ⟨kn, hkn, _⟩ := toString_ms_width n (by omega)
  obtain ⟨km, hkm, hmb⟩ := toString_ms_width m hm
  have hl : (toString n).toList.length = (toString m).toList.length := hlen
  rw [hkn, hkm, digitsW_length, digitsW_length] at hl
  have hk : kn = km := by omega
  subst hk
  rw [hkn, hkm]
  exact lex_append_of_length_eq (digitsW_lex _ n m hnm hmb)
    (by rw [digitsW_length, digitsW_length]) r s

/-- C13, amended: for two valid clock readings under one local time offset
(four-digit years), the first earlier than the second, the name generated at
the first is lexicographically smaller than the name generated at the second
whenever the two instants fall in different seconds, or fall in the same second
with millisecond counts printed with equally many digits. -/
theorem C13_names_sort_across_seconds_and_equal_width (a b : ClockReading)
    (ha : a.valid) (hb : b.valid) (hlt : a.earlier b)
    (hw : a.localtime = b.localtime → (toString a.ms).length = (toString b.ms).length) :
    frameFilename (timestampOf a) < frameFilename (timestampOf b) := by
  rw [String.lt_iff_toList_lt, frameFilename_toList a ha, frameFilename_toList b hb]
  obtain ⟨hy, hmo, hd, hh, hmi, hs, hms⟩ := hb
  apply List.Lex.append_left
  have b4 : b.localtime.tm_year + 1900 < 10 ^ 4 := by norm_num; omega
  have bmo : b.localtime.tm_mon + 1 < 10 ^ 2 := by norm_num; omega
  have bd : b.localtime.tm_mday < 10 ^ 2 := by norm_num; omega
  have bh : b.localtime.tm_hour < 10 ^ 2 := by norm_num; omega
  have bmi : b.localtime.tm_min < 10 ^ 2 := by norm_num; omega
  have bs : b.localtime.tm_sec < 10 ^ 2 := by norm_num; omega
  unfold ClockReading.earlier at hlt
  refine lex_field 4 _ _ _ _ b4 (hlt.imp (by omega) (fun h1 => ⟨by omega, ?_⟩))
  refine lex_field 2 _ _ _ _ bmo (h1.2.imp (by omega) (fun h2 => ⟨by omega, ?_⟩))
  refine lex_field 2 _ _ _ _ bd (h2.2.imp id (fun h3 => ⟨h3.1, ?_⟩))
  apply List.Lex.cons
  refine lex_field 2 _ _ _ _ bh (h3.2.imp id (fun h4 => ⟨h4.1, ?_⟩))
  refine lex_field 2 _ _ _ _ bmi (h4.2.imp id (fun h5 => ⟨h5.1, ?_⟩))
  refine lex_field 2 _ _ _ _ bs (h5.2.imp id (fun h6 => ⟨h6.1, ?_⟩))
  apply List.Lex.cons
  have hsame : a.localtime = b.localtime := by
    have ext : ∀ t1 t2 : Tm, t1.tm_sec = t2.tm_sec → t1.tm_min = t2.tm_min →
        t1.tm_hour = t2.tm_hour → t1.tm_mday = t2.tm_mday → t1.tm_mon = t2.tm_mon →
        t1.tm_year = t2.tm_year → t1 = t2 := by
      rintro ⟨s1, m1, o1, d1, n1, y1⟩ ⟨s2, m2, o2, d2, n2, y2⟩ e1 e2 e3 e4 e5 e6
      simp only at e1 e2 e3 e4 e5 e6
      subst e1 e2 e3 e4 e5 e6
      rfl
    exact ext _ _ h6.1 h5.1 h4.1 h3.1 h2.1 h1.1
  exact toString_ms_lex a.ms b.ms hms h6.2 (hw hsame) _ _

/-- C13 amended, at concrete readings: within the second 12:30:45 the names at
milliseconds 5 and 7 are in capture order, and the name at 12:30:45.038 sorts
before the name at 12:30:46.003. -/
theorem C13_names_sort_across_seconds_and_equal_width_witness :
    (exampleClock 5).valid ∧ (exampleClock 7).valid ∧
    (exampleClock 5).earlier (exampleClock 7) ∧
    (toString (exampleClock 5).ms).length = (toString (exampleClock 7).ms).length ∧
    frameFilename (timestampOf (exampleClock 5)) < frameFilename (timestampOf (exampleClock 7)) ∧
    frameFilename (timestampOf (exampleClock 38))
      < frameFilename (timestampOf
          { localtime := { (exampleClock 3).localtime with tm_sec := 46 }, ms := 3 }) :=
  ⟨by decide, by decide, by decide, by decide,
   C13_names_sort_across_seconds_and_equal_width (exampleClock 5) (exampleClock 7)
     (by decide) (by decide) (by decide) (fun _ => by decide),
   C13_names_sort_across_seconds_and_equal_width (exampleClock 38)
     { localtime := { (exampleClock 3).localtime with tm_sec := 46 }, ms := 3 }
     (by decide) (by decide) (by decide) (fun h => absurd h (by decide))⟩
